import Mathlib

/-!
# Verification of the `objtools` `ObjectMask` engine

This file embeds the mask engine of the repository (`object-mask.ts` plus the
value primitives of `index.ts` it uses) as Lean definitions and proves or
refutes the frozen claims about it.

Modelling conventions (documented once here):

* A mask tree is a JS value that is a boolean, a non-boolean scalar (date,
  number, ...; the code treats all of these as opaque atoms) or an object.
  Objects are embedded as association lists `List (String × Mask)` in JS
  property-insertion order; `obj[k] = v` updates the entry in place when the
  key exists and appends otherwise, `delete obj[k]` removes it, and
  `for (key in obj)` iterates in list order, which matches the JS semantics
  for the string keys used by masks.  JS objects cannot contain two entries
  with the same key; theorems that need this carry a `wfMask` hypothesis.
* Masks are modelled after the constructor's canonicalization
  (`underscorizeArrays`): array nodes have already been replaced by
  `{ _: ... }` wildcard nodes, so the mask type has no array constructor.
* Non-boolean scalar mask leaves are modelled as truthy atoms `scalar n`
  (dates, non-zero numbers, ...), with `n` giving identity for equality
  checks.
* Dotted paths are embedded as their segment lists (`path.split('.')`);
  `a.b.c` is `["a", "b", "c"]`.  Where the source manipulates path strings
  the corresponding list operation is used.
* Target values are scalars (including booleans/null, opaque for traversal),
  sequences, or objects (association lists as above).
* ES modules run in strict mode, so a JS property assignment whose base is a
  primitive throws a TypeError; such assignments are modelled as an explicit
  `typeErr` error result.
-/

set_option maxRecDepth 100000

/-- A mask tree after constructor canonicalization: a boolean leaf, a
non-boolean (truthy) scalar leaf such as a date, or an object node given as an
association list of fields in JS property order. -/
inductive Mask where
  | bool (b : Bool)
  | scalar (n : Nat)
  | node (entries : List (String × Mask))
deriving Repr

/-- A target value: an opaque scalar (numbers, strings, booleans, null, dates
&mdash; traversal stops at all of these), a sequence, or an object. -/
inductive Value where
  | scalar (n : Nat)
  | arr (elems : List Value)
  | obj (entries : List (String × Value))
deriving Repr

namespace Mask

/-- JS property read `obj[k]` on an object: the value of the first (unique)
entry with key `k`, or `undefined` (`none`). -/
def lookupv : List (String × Mask) → String → Option Mask
  | [], _ => none
  | (k, v) :: es, key => if k = key then some v else lookupv es key

/-- JS `k in obj`. -/
def hasKey (es : List (String × Mask)) (k : String) : Bool :=
  (lookupv es k).isSome

/-- JS property write `obj[k] = v`: update in place if the key exists,
otherwise append (new properties come last in iteration order). -/
def setKey : List (String × Mask) → String → Mask → List (String × Mask)
  | [], key, v => [(key, v)]
  | (k, w) :: es, key, v =>
      if k = key then (k, v) :: es else (k, w) :: setKey es key v

/-- JS `delete obj[k]`. -/
def delKey : List (String × Mask) → String → List (String × Mask)
  | [], _ => []
  | (k, w) :: es, key => if k = key then delKey es key else (k, w) :: delKey es key

/-- JS truthiness of a mask value (objects are truthy; of the scalars we
model, only `false` is falsy). -/
def truthy : Mask → Bool
  | bool b => b
  | scalar _ => true
  | node _ => true

/-- `objtools.isScalar` restricted to mask trees: booleans and non-boolean
scalars are scalar, objects are not. -/
def isScalarM : Mask → Bool
  | bool _ => true
  | scalar _ => true
  | node _ => false

/-- Whether a mask is exactly the boolean `true`. -/
def isTrueMask : Mask → Bool
  | bool true => true
  | _ => false

end Mask

open Mask

/-- The walk of `ObjectMask.getSubMask` along a dotted path (as its segment
list): at each segment the exact key is used when present, else the wildcard
slot `_`; a missing wildcard resolves to `false` (the final `mask || false`),
and a scalar mask stops the walk early, the scalar being returned. -/
def subMask : Mask → List String → Mask
  | m, [] => m
  | Mask.node es, k :: rest =>
      match lookupv es k with
      | some v => subMask v rest
      | none =>
          match lookupv es "_" with
          | some w => subMask w rest
          | none => Mask.bool false
  | Mask.bool b, _ :: _ => Mask.bool b
  | Mask.scalar n, _ :: _ => Mask.scalar n

/-- `ObjectMask.checkPath`: the resolved sub-mask is exactly `true`. -/
def ObjectMask.checkPath (m : Mask) (ps : List String) : Bool :=
  isTrueMask (subMask m ps)

mutual
/-- The `invert` helper: `!mask` on scalars; on object nodes every field is
inverted, then a `_: true` wildcard is added when absent, while a wildcard
whose inverted value is falsy is deleted. -/
def invert : Mask → Mask
  | Mask.bool b => Mask.bool (!b)
  | Mask.scalar _ => Mask.bool false
  | Mask.node es =>
      let res := invertL es
      match lookupv res "_" with
      | none => Mask.node (res ++ [("_", Mask.bool true)])
      | some w => Mask.node (if truthy w then res else delKey res "_")

/-- Pointwise inversion of an object node's fields, preserving order. -/
def invertL : List (String × Mask) → List (String × Mask)
  | [] => []
  | (k, v) :: es => (k, invert v) :: invertL es
end

/-- `ObjectMask.invertMask` (the constructor's deep copy is the identity in
this functional model). -/
def ObjectMask.invertMask (m : Mask) : Mask := invert m

mutual
/-- `objtools.deepEquals` on mask trees.  Scalars compare by identity;
two object nodes compare key-by-key in both directions, an absent key being
unequal to any present value; an object node compares equal to a scalar
exactly when the node is empty (the source's map-comparison branch runs both
`for..in` loops vacuously in that case). -/
def deepEquals : Mask → Mask → Bool
  | Mask.bool a, Mask.bool b => a == b
  | Mask.bool _, Mask.scalar _ => false
  | Mask.scalar _, Mask.bool _ => false
  | Mask.scalar m, Mask.scalar n => m == n
  | Mask.bool _, Mask.node eb => eb.isEmpty
  | Mask.scalar _, Mask.node eb => eb.isEmpty
  | Mask.node ea, Mask.bool _ => ea.isEmpty
  | Mask.node ea, Mask.scalar _ => ea.isEmpty
  | Mask.node ea, Mask.node eb =>
      deepEqL ea eb && eb.all (fun kv => hasKey ea kv.1)

/-- First `for..in` loop of `deepEquals` over the left node's entries. -/
def deepEqL : List (String × Mask) → List (String × Mask) → Bool
  | [], _ => true
  | (k, v) :: es, eb =>
      (match lookupv eb k with
       | some w => deepEquals v w
       | none => false) && deepEqL es eb
end

mutual
/-- `lodash.isEqual` on mask trees (used by `subtract`): like `deepEquals`
but type-sensitive, so an object never equals a scalar. -/
def lodashEqual : Mask → Mask → Bool
  | Mask.bool a, Mask.bool b => a == b
  | Mask.scalar m, Mask.scalar n => m == n
  | Mask.node ea, Mask.node eb =>
      lodashEqL ea eb && eb.all (fun kv => hasKey ea kv.1)
  | _, _ => false

/-- Entrywise comparison for `lodashEqual` over the left node's entries. -/
def lodashEqL : List (String × Mask) → List (String × Mask) → Bool
  | [], _ => true
  | (k, v) :: es, eb =>
      (match lookupv eb k with
       | some w => lodashEqual v w
       | none => false) && lodashEqL es eb
end

mutual
/-- `ObjectMask.validate` / `valWhitelist`: the tree contains only booleans
and objects (no non-boolean scalar leaves).  Note the source accepts empty
object nodes. -/
def valWhitelist : Mask → Bool
  | Mask.bool _ => true
  | Mask.scalar _ => false
  | Mask.node es => valWhitelistL es

/-- `valWhitelist` over an object node's entries. -/
def valWhitelistL : List (String × Mask) → Bool
  | [] => true
  | (_, v) :: es => valWhitelist v && valWhitelistL es
end

mutual
/-- The claims' validity notion, read literally: every leaf of the tree is a
boolean.  An empty object node is a leaf that is not a boolean, so it is
excluded (the source's `validate()` accepts it, but such a leaf is not a
boolean). -/
def strictValid : Mask → Bool
  | Mask.bool _ => true
  | Mask.scalar _ => false
  | Mask.node [] => false
  | Mask.node (e :: es) => strictValidL (e :: es)

/-- `strictValid` over a (non-empty) entry list. -/
def strictValidL : List (String × Mask) → Bool
  | [] => true
  | (_, v) :: es => strictValid v && strictValidL es
end

mutual
/-- Structural well-formedness of the embedding: a JS object cannot have two
properties with the same name, so every node's key list is duplicate-free. -/
def wfMask : Mask → Bool
  | Mask.bool _ => true
  | Mask.scalar _ => true
  | Mask.node es => (es.map Prod.fst).Nodup && wfMaskL es

/-- `wfMask` over an entry list. -/
def wfMaskL : List (String × Mask) → Bool
  | [] => true
  | (_, v) :: es => wfMask v && wfMaskL es
end

/-! ## The mask algebra: `addMask`, `andMask`, `subtract`, `sanitizeFalsies`

The three binary combiners recurse on sub-masks of both operands at once, so
they are defined by structural recursion on an explicit fuel argument; the
public entry points supply `sizeOf a + sizeOf b` fuel, which the
`Fueled.sufficient` lemmas below show is always enough.  The per-entry loops
are factored into list recursions parameterized by the combiner at the next
fuel level, mirroring the source's `for (key in ...)` loops in iteration
order. -/

mutual
/-- An executable size measure on mask trees, used as fuel for the mask
algebra combiners. -/
def maskSize : Mask → Nat
  | Mask.bool _ => 1
  | Mask.scalar _ => 1
  | Mask.node es => maskSizeL es + 1

/-- `maskSize` over an entry list. -/
def maskSizeL : List (String × Mask) → Nat
  | [] => 1
  | (_, v) :: es => maskSize v + maskSizeL es + 1
end

/-- `sanitizeFalsies`: when the object has no truthy wildcard, the wildcard
key and every key whose value is exactly `false` are deleted. -/
def sanitizeFalsies (es : List (String × Mask)) : List (String × Mask) :=
  match lookupv es "_" with
  | some w => if truthy w then es else (delKey es "_").filter (fun kv => !(kv.2 matches Mask.bool false))
  | none => (delKey es "_").filter (fun kv => !(kv.2 matches Mask.bool false))

/-- Loops 1–2 of `addMask` over the accumulator's entries: a key also in the
new mask is combined with the new mask's value; a concrete key only in the
accumulator is combined with the new mask's wildcard when present; the
accumulator's wildcard entry is left for the wildcard step. -/
def addLeft (comb : Mask → Mask → Mask) (eb : List (String × Mask)) :
    List (String × Mask) → List (String × Mask)
  | [] => []
  | (k, v) :: es =>
      (k, if k = "_" then v
          else
            match lookupv eb k with
            | some w => comb v w
            | none =>
                match lookupv eb "_" with
                | some bw => comb v bw
                | none => v) :: addLeft comb eb es

/-- Loop 2 of `addMask` for the new mask's concrete keys absent from the
accumulator: combined with the accumulator's wildcard when present, else
copied; appended in the new mask's order. -/
def addRight (comb : Mask → Mask → Mask) (ea : List (String × Mask)) :
    List (String × Mask) → List (String × Mask)
  | [] => []
  | (k, w) :: fs =>
      if k = "_" ∨ hasKey ea k then addRight comb ea fs
      else
        (k, match lookupv ea "_" with
            | some aw => comb w aw
            | none => w) :: addRight comb ea fs

/-- The wildcard step of `addMask`: when the new mask has a wildcard it is
combined into the accumulator's wildcard (in place) or appended. -/
def addWild (comb : Mask → Mask → Mask) (awo bwo : Option Mask)
    (es : List (String × Mask)) : List (String × Mask) :=
  match bwo with
  | none => es
  | some bw =>
      match awo with
      | some aw => setKey es "_" (comb aw bw)
      | none => es ++ [("_", bw)]

/-- The redundancy-elimination step of `addMask`: when a wildcard is present,
every concrete key whose value `deepEquals` the wildcard's value is deleted. -/
def pruneWild (es : List (String × Mask)) : List (String × Mask) :=
  match lookupv es "_" with
  | none => es
  | some w => es.filter (fun kv => kv.1 == "_" || !deepEquals kv.2 w)

/-- Fueled `addMask`.  Base cases: either operand `true` gives `true`; a
scalar new mask leaves the accumulator; a scalar accumulator is replaced by a
copy of the new mask.  On two objects the entry loops, wildcard step and
pruning step run in source order. -/
def addMaskF : Nat → Mask → Mask → Mask
  | 0, _, _ => Mask.bool false
  | fuel+1, a, b =>
      match a, b with
      | Mask.bool true, _ => Mask.bool true
      | _, Mask.bool true => Mask.bool true
      | a, Mask.bool _ => a
      | a, Mask.scalar _ => a
      | Mask.bool _, Mask.node eb => Mask.node eb
      | Mask.scalar _, Mask.node eb => Mask.node eb
      | Mask.node ea, Mask.node eb =>
          let comb := addMaskF fuel
          let m2 := addLeft comb eb ea ++ addRight comb ea eb
          let m3 := addWild comb (lookupv ea "_") (lookupv eb "_") m2
          Mask.node (pruneWild m3)

/-- `addMask` with sufficient fuel. -/
def addMask (a b : Mask) : Mask := addMaskF (maskSize a + maskSize b) a b

/-- The accumulator loop of `ObjectMask.addMasks`, with its `true`
short-circuit and the final `resultMask || false`. -/
def addMasksAux : Mask → List Mask → Mask
  | acc, [] => if truthy acc then acc else Mask.bool false
  | acc, m :: rest =>
      let acc' := addMask acc m
      if isTrueMask acc' then Mask.bool true else addMasksAux acc' rest

/-- `ObjectMask.addMasks` over its operand list (the accumulator starts as
`false`). -/
def ObjectMask.addMasks (ms : List Mask) : Mask := addMasksAux (Mask.bool false) ms

/-- Loops 1–2 of `andMask` over the accumulator's entries: a key also in the
new mask is ANDed with it; a concrete key only in the accumulator is ANDed
with the new mask's wildcard, or `false` when there is none. -/
def andLeft (comb : Mask → Mask → Mask) (eb : List (String × Mask)) :
    List (String × Mask) → List (String × Mask)
  | [] => []
  | (k, v) :: es =>
      (k, if k = "_" then v
          else
            match lookupv eb k with
            | some w => comb v w
            | none =>
                match lookupv eb "_" with
                | some bw => comb v bw
                | none => Mask.bool false) :: andLeft comb eb es

/-- Loop 3 of `andMask` for the new mask's concrete keys absent from the
accumulator: ANDed with the accumulator's wildcard, or `false`. -/
def andRight (comb : Mask → Mask → Mask) (ea : List (String × Mask)) :
    List (String × Mask) → List (String × Mask)
  | [] => []
  | (k, w) :: fs =>
      if k = "_" ∨ hasKey ea k then andRight comb ea fs
      else
        (k, match lookupv ea "_" with
            | some aw => comb w aw
            | none => Mask.bool false) :: andRight comb ea fs

/-- Fueled `andMask`: `true` is the identity on either side (a copy of the
other operand), any other scalar operand collapses to `false`; on two
objects the entry loops run, the wildcard survives only when both operands
have one, falsy leftovers are sanitized, and an empty result collapses to
`false`. -/
def andMaskF : Nat → Mask → Mask → Mask
  | 0, _, _ => Mask.bool false
  | fuel+1, a, b =>
      match a, b with
      | Mask.bool true, b => b
      | a, Mask.bool true => a
      | Mask.bool false, _ => Mask.bool false
      | Mask.scalar _, _ => Mask.bool false
      | _, Mask.bool false => Mask.bool false
      | _, Mask.scalar _ => Mask.bool false
      | Mask.node ea, Mask.node eb =>
          let comb := andMaskF fuel
          let m2 := andLeft comb eb ea ++ andRight comb ea eb
          let m3 :=
            match lookupv ea "_", lookupv eb "_" with
            | some aw, some bw => setKey m2 "_" (comb aw bw)
            | _, _ => delKey m2 "_"
          let m4 := sanitizeFalsies m3
          if m4.isEmpty then Mask.bool false else Mask.node m4

/-- `andMask` with sufficient fuel. -/
def andMask (a b : Mask) : Mask := andMaskF (maskSize a + maskSize b) a b

/-- The accumulator loop of `ObjectMask.andMasks`, with its `false`
short-circuit and the final `resultMask || false`. -/
def andMasksAux : Mask → List Mask → Mask
  | acc, [] => if truthy acc then acc else Mask.bool false
  | acc, m :: rest =>
      let acc' := andMask acc m
      if acc' matches Mask.bool false then Mask.bool false else andMasksAux acc' rest

/-- `ObjectMask.andMasks` over its operand list (the accumulator starts as
`true`). -/
def ObjectMask.andMasks (ms : List Mask) : Mask := andMasksAux (Mask.bool true) ms

/-- Errors of the mask algebra: the source's invalid-operation error
`Cannot subtract non-boolean scalars`, and a strict-mode TypeError raised by
a JS property assignment whose base is a primitive. -/
inductive MaskErr where
  | nonBoolScalar
  | typeErr
deriving Repr, DecidableEq

/-- Loop 1 of `subtract` (run when the subtrahend has a wildcard `bw`): every
key of the minuend that is the wildcard or absent from the subtrahend has the
wildcard subtracted from its value. -/
def subStep1 (comb : Mask → Mask → Except MaskErr Mask)
    (eb : List (String × Mask)) (bw : Mask) :
    List (String × Mask) → Except MaskErr (List (String × Mask))
  | [] => .ok []
  | (k, v) :: es => do
      let v' ← if k = "_" ∨ ¬ hasKey eb k then comb v bw else pure v
      let rest ← subStep1 comb eb bw es
      pure ((k, v') :: rest)

/-- The both-wildcards branch of `subtract`: for every concrete key of the
subtrahend the difference is written into the minuend's *wildcard* object
(`a._[key] = subtract(a[key], b[key])`); if the minuend's wildcard is a
primitive at that moment, the strict-mode assignment raises a TypeError. -/
def subBothWild (comb : Mask → Mask → Except MaskErr Mask)
    (a : List (String × Mask)) :
    List (String × Mask) → Except MaskErr (List (String × Mask))
  | [] => .ok a
  | (k, w) :: fs =>
      if k = "_" then subBothWild comb a fs
      else do
        let rhs ← match lookupv a k with
                  | some av => comb av w
                  | none => pure (invert w)
        match lookupv a "_" with
        | some (Mask.node ws) =>
            subBothWild comb (setKey a "_" (Mask.node (setKey ws k rhs))) fs
        | _ => .error .typeErr

/-- The remaining branch of `subtract`: every key of the subtrahend
(including a wildcard) has its difference written at the same key of the
minuend; an absent minuend value is falsy, so the difference is the inverted
subtrahend value. -/
def subElse (comb : Mask → Mask → Except MaskErr Mask)
    (a : List (String × Mask)) :
    List (String × Mask) → Except MaskErr (List (String × Mask))
  | [] => .ok a
  | (k, w) :: fs => do
      let rhs ← match lookupv a k with
                | some av => comb av w
                | none => pure (invert w)
      subElse comb (setKey a k rhs) fs

/-- Fueled `subtract`.  Base cases in source order: a `true` minuend gives
the inverted subtrahend, a falsy minuend gives `false` (for the boolean
minuends we model), a falsy subtrahend leaves the minuend, a `true` or
`lodash.isEqual` subtrahend gives `false`; a remaining non-boolean scalar on
either side raises the invalid-operation error; otherwise the entry loops
run and the result is sanitized. -/
def subtractF : Nat → Mask → Mask → Except MaskErr Mask
  | 0, _, _ => .ok (Mask.bool false)
  | fuel+1, a, b =>
      match a, b with
      | Mask.bool true, b => .ok (invert b)
      | Mask.bool false, _ => .ok (Mask.bool false)
      | a, Mask.bool false => .ok a
      | _, Mask.bool true => .ok (Mask.bool false)
      | a, b =>
          if lodashEqual a b then .ok (Mask.bool false)
          else
            match a, b with
            | Mask.scalar _, _ => .error .nonBoolScalar
            | _, Mask.scalar _ => .error .nonBoolScalar
            | Mask.node ea, Mask.node eb => do
                let comb := subtractF fuel
                let a1 ← match lookupv eb "_" with
                         | some bw => subStep1 comb eb bw ea
                         | none => pure ea
                let a2 ← if hasKey ea "_" ∧ hasKey eb "_" then subBothWild comb a1 eb
                         else subElse comb a1 eb
                pure (Mask.node (sanitizeFalsies a2))
            | _, _ => .error .nonBoolScalar

/-- `subtract` with sufficient fuel. -/
def subtract (a b : Mask) : Except MaskErr Mask := subtractF (maskSize a + maskSize b) a b

/-- `ObjectMask.subtractMasks` (and the instance method `subtractMask` it
delegates to): the minuend is deep-copied, so functionally the result is just
`subtract`. -/
def ObjectMask.subtractMasks (min sub : Mask) : Except MaskErr Mask := subtract min sub

/-! ## `createMaskFromFieldList` -/

/-- The JS string length of a dotted path given by its segments:
segment lengths plus the joining dots. -/
def dottedLen (segs : List String) : Nat :=
  (segs.map String.length).sum + (segs.length - 1)

/-- Stable insertion of a path into a list sorted by decreasing dotted
length: an inserted path goes before the first strictly shorter entry, and
before equal-length entries that followed it in the original list. -/
def insertByLen (x : List String) : List (List String) → List (List String)
  | [] => [x]
  | y :: ys => if dottedLen y ≤ dottedLen x then x :: y :: ys else y :: insertByLen x ys

/-- Stable sort by decreasing dotted length, as JS `Array.prototype.sort`
with comparator `(a, b) => b.length - a.length` (stable per ES2019). -/
def sortByLenDesc : List (List String) → List (List String)
  | [] => []
  | x :: xs => insertByLen x (sortByLenDesc xs)

/-- `objtools.setPath` specialized to building a mask tree with value `true`:
walks the segments, replacing scalar intermediates by fresh empty objects,
and writes `true` at the final segment. -/
def setPath : Mask → List String → Mask
  | m, [] => m
  | m, [k] =>
      match m with
      | Mask.node es => Mask.node (setKey es k (Mask.bool true))
      | m => m
  | m, k :: rest =>
      match m with
      | Mask.node es =>
          let sub :=
            match lookupv es k with
            | some (Mask.node fs) => Mask.node fs
            | _ => Mask.node []
          Mask.node (setKey es k (setPath sub rest))
      | m => m

/-- `ObjectMask.createMaskFromFieldList`: paths (already split into
segments) are sorted longest dotted form first, then each is set to `true`
in a fresh tree. -/
def ObjectMask.createMaskFromFieldList (fields : List (List String)) : Mask :=
  (sortByLenDesc fields).foldl setPath (Mask.node [])

/-! ## Filtering, dotted maps, `removeField` -/

namespace Value

/-- JS property read on a value object. -/
def lookupV : List (String × Value) → String → Option Value
  | [], _ => none
  | (k, v) :: es, key => if k = key then some v else lookupV es key

end Value

open Value

/-- The mask resolved for a key of a filtered object:
`(key in mask) ? mask[key] : mask._`, with the subsequent `maskVal || false`
(an absent wildcard resolves to `false`; the boolean `false` is the only
falsy resolved value in this model, so `|| false` is the identity on present
values). -/
def resolveMask (es : List (String × Mask)) (k : String) : Mask :=
  match lookupv es k with
  | some v => v
  | none =>
      match lookupv es "_" with
      | some w => w
      | none => Mask.bool false

mutual
/-- `filterDeep`: a `true` mask keeps the value (by reference); an object
mask applied to an object or sequence keeps each member whose resolved mask
keeps it, sequences being re-indexed contiguously; every other combination
is masked out, reporting the current dotted path to the hook (collected in
the second component, in call order) and producing `undefined` (`none`). -/
def filterDeep : Value → Mask → List String → Option Value × List (List String)
  | v, Mask.bool true, _ => (some v, [])
  | Value.obj kvs, Mask.node es, path =>
      let r := filterEntries kvs es path
      (some (Value.obj r.1), r.2)
  | Value.arr xs, Mask.node es, path =>
      let r := filterElems xs 0 es path
      (some (Value.arr r.1), r.2)
  | _, _, path => (none, [path])

/-- `filterDeep` over an object's entries, in order. -/
def filterEntries : List (String × Value) → List (String × Mask) → List String →
    List (String × Value) × List (List String)
  | [], _, _ => ([], [])
  | (k, x) :: kvs, es, path =>
      let r := filterDeep x (resolveMask es k) (path ++ [k])
      let rest := filterEntries kvs es path
      (match r.1 with
       | some v => (k, v) :: rest.1
       | none => rest.1,
       r.2 ++ rest.2)

/-- `filterDeep` over a sequence's elements; kept elements are pushed, so the
result is re-indexed contiguously. -/
def filterElems : List Value → Nat → List (String × Mask) → List String →
    List Value × List (List String)
  | [], _, _, _ => ([], [])
  | x :: xs, i, es, path =>
      let r := filterDeep x (resolveMask es (toString i)) (path ++ [toString i])
      let rest := filterElems xs (i + 1) es path
      (match r.1 with
       | some v => v :: rest.1
       | none => rest.1,
       r.2 ++ rest.2)
end

/-- `ObjectMask.filterObject`: the filtered copy, `none` when the whole value
is masked out (the JS function returns `undefined` then). -/
def ObjectMask.filterObject (m : Mask) (v : Value) : Option Value :=
  (filterDeep v m []).1

/-- `ObjectMask.getMaskedOutFields`: the dotted paths passed to the
`maskedOutHook` during a filter pass, in call order. -/
def ObjectMask.getMaskedOutFields (m : Mask) (v : Value) : List (List String) :=
  (filterDeep v m []).2

/-- `ObjectMask.checkFields`: no field of the value is masked out. -/
def ObjectMask.checkFields (m : Mask) (v : Value) : Bool :=
  (ObjectMask.getMaskedOutFields m v).isEmpty

/-- `ObjectMask.filterDottedObject`: keep exactly the entries of a dotted
map whose key passes `checkPath`. -/
def ObjectMask.filterDottedObject (m : Mask) (d : List (List String × Value)) :
    List (List String × Value) :=
  d.filter (fun kv => ObjectMask.checkPath m kv.1)

/-- `ObjectMask.getDottedMaskedOutFields`: the keys of a dotted map that fail
`checkPath`, in map order. -/
def ObjectMask.getDottedMaskedOutFields (m : Mask) (d : List (List String × Value)) :
    List (List String) :=
  (d.filter (fun kv => !ObjectMask.checkPath m kv.1)).map Prod.fst

mutual
/-- `objtools.collapseToDotted` (default flags) below the top level: scalars
are recorded at their dotted path, objects and sequences are descended into,
a sequence contributing its indices as path segments. -/
def collapse : Value → List String → List (List String × Value)
  | Value.scalar n, path => [(path, Value.scalar n)]
  | Value.obj kvs, path => collapseEntries kvs path
  | Value.arr xs, path => collapseElems xs 0 path

/-- `collapse` over an object's entries. -/
def collapseEntries : List (String × Value) → List String → List (List String × Value)
  | [], _ => []
  | (k, x) :: kvs, path => collapse x (path ++ [k]) ++ collapseEntries kvs path

/-- `collapse` over a sequence's elements. -/
def collapseElems : List Value → Nat → List String → List (List String × Value)
  | [], _, _ => []
  | x :: xs, i, path => collapse x (path ++ [toString i]) ++ collapseElems xs (i + 1) path
end

/-- `objtools.collapseToDotted`: a scalar collapses to the empty map,
anything else to the map of its scalar leaves keyed by dotted path. -/
def collapseToDotted (v : Value) : List (List String × Value) :=
  match v with
  | Value.scalar _ => []
  | v => collapse v []

mutual
/-- `objtools.deepEquals` on target values: scalars by identity, sequences
pointwise (and by length), objects key-by-key in both directions; a sequence
never equals a non-sequence, while an object equals a scalar exactly when the
object is empty (both `for..in` loops of the map branch run vacuously). -/
def deepEqualsV : Value → Value → Bool
  | Value.scalar a, Value.scalar b => a == b
  | Value.scalar _, Value.arr _ => false
  | Value.arr _, Value.scalar _ => false
  | Value.arr as, Value.arr bs => deepEqArr as bs
  | Value.arr _, Value.obj _ => false
  | Value.obj _, Value.arr _ => false
  | Value.scalar _, Value.obj eb => eb.isEmpty
  | Value.obj ea, Value.scalar _ => ea.isEmpty
  | Value.obj ea, Value.obj eb =>
      deepEqVL ea eb && eb.all (fun kv => (lookupV ea kv.1).isSome)

/-- Pointwise `deepEqualsV` on sequences. -/
def deepEqArr : List Value → List Value → Bool
  | [], [] => true
  | a :: as, b :: bs => deepEqualsV a b && deepEqArr as bs
  | _, _ => false

/-- First `for..in` loop of `deepEqualsV` over the left object's entries. -/
def deepEqVL : List (String × Value) → List (String × Value) → Bool
  | [], _ => true
  | (k, v) :: es, eb =>
      (match lookupV eb k with
       | some w => deepEqualsV v w
       | none => false) && deepEqVL es eb
end

/-- Errors `removeField` can raise: the source's invalid-operation error
`Attempt to remove wildcard`, and a strict-mode TypeError from assigning a
property on a primitive sub-mask. -/
inductive RfErr where
  | wildcard
  | typeErr
deriving Repr, DecidableEq

/-- JS property read `submask[key]` where the base may be a primitive
(primitives have none of the properties we look up). -/
def getKeyJS : Mask → String → Option Mask
  | Mask.node es, k => lookupv es k
  | _, _ => none

/-- JS truthiness of a possibly-`undefined` value. -/
def truthyO : Option Mask → Bool
  | some w => truthy w
  | none => false

/-- The materialization chain of `removeField`'s final branch: each
remaining segment creates `{ _: true }` and the last segment is set to
`false`. -/
def buildChain : List String → Mask
  | [] => Mask.bool false
  | k :: rest => Mask.node [("_", Mask.bool true), (k, buildChain rest)]

/-- The `while (submask)` loop of `removeField`, modelled on fuel (each
iteration either consumes a path segment or descends into the tree, so
`subpaths.length + maskSize m` iterations always suffice).  A `shift` past
the end of the path yields `undefined`, which JS coerces to the property name
`"undefined"`.  Branches in source order: an object sub-mask is entered; a
truthy wildcard with a falsy sub-mask materializes a copy of the wildcard;
otherwise the remaining segments are materialized as `{ _: true }` chains
ending in `false`, which on a primitive base is a strict-mode TypeError. -/
def rmLoopF : Nat → Mask → List String → Except RfErr Mask
  | 0, m, _ => .ok m
  | fuel+1, m, subpaths =>
      if truthy m then
        let key := match subpaths with | [] => "undefined" | k :: _ => k
        let rest := subpaths.tail
        match getKeyJS m key with
        | some (Mask.node fs) =>
            (rmLoopF fuel (Mask.node fs) rest).map (fun v' =>
              match m with
              | Mask.node es => Mask.node (setKey es key v')
              | m => m)
        | next =>
            if truthyO (getKeyJS m "_") ∧ ¬ truthyO next then
              match m with
              | Mask.node es =>
                  (rmLoopF fuel ((lookupv es "_").getD (Mask.bool false)) rest).map
                    (fun v' => Mask.node (setKey es key v'))
              | m => .ok m
            else
              match m with
              | Mask.node es => .ok (Mask.node (setKey es key (buildChain rest)))
              | _ => .error .typeErr
      else .ok m

/-- `objtools.setPath({}, path, true)`: the nested one-key object checked by
`removeField` through `checkFields` (`true` is an opaque scalar here). -/
def buildPathVal : List String → Value
  | [] => Value.obj []
  | [k] => Value.obj [(k, Value.scalar 1)]
  | k :: rest => Value.obj [(k, buildPathVal rest)]

/-- `ObjectMask.removeField` on a dotted path given by its segments.  The
guard `path === '_' || path.slice(-2) === '._'` is exactly "the last segment
is `_`"; when the path is currently allowed the materialization loop runs,
otherwise the call is a no-op. -/
def ObjectMask.removeField (m : Mask) (path : List String) : Except RfErr Mask :=
  if path.getLast? = some "_" then .error .wildcard
  else if ObjectMask.checkFields m (buildPathVal path) then
    rmLoopF (path.length + maskSize m + 1) m path
  else .ok m

example : subMask (Mask.node [("a", Mask.node [("b", Mask.bool true)])]) ["a", "b"] = Mask.bool true := rfl
example : ObjectMask.checkPath (Mask.node [("a", Mask.bool true)]) ["a", "c"] = true := by decide
example : invert (Mask.node [("a", Mask.bool true)]) =
    Mask.node [("a", Mask.bool false), ("_", Mask.bool true)] := rfl
example : deepEquals (Mask.node []) (Mask.bool true) = true := by decide
example : lodashEqual (Mask.node []) (Mask.bool true) = false := by decide
example : strictValid (Mask.node [("a", Mask.node [])]) = false := by decide
example : valWhitelist (Mask.node [("a", Mask.node [])]) = true := by decide

example :
    ObjectMask.addMasks
      [Mask.node [("str1", Mask.bool true),
                  ("obj", Mask.node [("foo", Mask.bool true), ("bar", Mask.bool true)])],
       Mask.node [("str1", Mask.bool true),
                  ("obj", Mask.node [("_", Mask.bool true), ("foo", Mask.bool false)])]] =
    Mask.node [("str1", Mask.bool true), ("obj", Mask.node [("_", Mask.bool true)])] := rfl

example :
    ObjectMask.andMasks
      [Mask.node [("str1", Mask.bool true), ("nul2", Mask.bool true),
                  ("obj", Mask.node [("foo", Mask.bool true), ("bar", Mask.bool true)])],
       Mask.node [("str1", Mask.bool true), ("num2", Mask.bool true), ("nul2", Mask.bool true),
                  ("obj", Mask.node [("_", Mask.bool true), ("foo", Mask.bool false)])]] =
    Mask.node [("str1", Mask.bool true), ("nul2", Mask.bool true),
               ("obj", Mask.node [("bar", Mask.bool true)])] := rfl

example :
    ObjectMask.subtractMasks (Mask.node [("_", Mask.bool true)])
      (Mask.node [("x", Mask.bool false), ("_", Mask.bool true)]) =
    Except.error MaskErr.typeErr := rfl

example :
    ObjectMask.createMaskFromFieldList [["foo"], ["bar", "baz"], ["bar", "baz", "biz"]] =
    Mask.node [("bar", Mask.node [("baz", Mask.bool true)]), ("foo", Mask.bool true)] := rfl

example : (toString 1 : String) = "1" := rfl

example :
    ObjectMask.filterObject
      (Mask.node [("_", Mask.bool true), ("foo", Mask.bool false)])
      (Value.obj [("foo", Value.scalar 1), ("bar", Value.scalar 2)]) =
    some (Value.obj [("bar", Value.scalar 2)]) := rfl

example :
    ObjectMask.filterObject (Mask.node [("0", Mask.bool false), ("1", Mask.bool true)])
      (Value.arr [Value.scalar 10, Value.scalar 20]) =
    some (Value.arr [Value.scalar 20]) := rfl

example :
    ObjectMask.filterObject (Mask.node [("0", Mask.bool false), ("1", Mask.bool true)])
      (Value.arr [Value.scalar 20]) =
    some (Value.arr []) := rfl

example :
    collapseToDotted (Value.obj [("x", Value.obj [("y", Value.scalar 1), ("z", Value.scalar 2)])]) =
    [(["x", "y"], Value.scalar 1), (["x", "z"], Value.scalar 2)] := rfl

example :
    ObjectMask.getMaskedOutFields (Mask.node [("x", Mask.bool false)])
      (Value.obj [("x", Value.obj [("y", Value.scalar 1), ("z", Value.scalar 2)])]) =
    [["x"]] := rfl

example :
    ObjectMask.getDottedMaskedOutFields (Mask.node [("x", Mask.bool false)])
      (collapseToDotted (Value.obj [("x", Value.obj [("y", Value.scalar 1), ("z", Value.scalar 2)])])) =
    [["x", "y"], ["x", "z"]] := rfl

example : ObjectMask.removeField (Mask.bool true) ["a"] = Except.error RfErr.typeErr := rfl

example :
    ObjectMask.removeField (Mask.node [("_", Mask.node [("x", Mask.bool true)])]) ["k", "x"] =
    Except.ok (Mask.node [("_", Mask.node [("x", Mask.bool true)]),
                          ("k", Mask.node [("x", Mask.bool false)])]) := rfl

/-! ## Auxiliary predicates and measures on values -/

mutual
/-- A value containing no sequences (claims C5 and C9 are amended to such
values: re-indexing of filtered sequences shifts numeric keys). -/
def seqFree : Value → Bool
  | Value.scalar _ => true
  | Value.arr _ => false
  | Value.obj kvs => seqFreeL kvs

/-- `seqFree` over an object's entries. -/
def seqFreeL : List (String × Value) → Bool
  | [] => true
  | (_, x) :: kvs => seqFree x && seqFreeL kvs
end

mutual
/-- An executable size measure on values, used for strong induction. -/
def valueSize : Value → Nat
  | Value.scalar _ => 1
  | Value.arr xs => valueSizeArr xs + 1
  | Value.obj kvs => valueSizeL kvs + 1

/-- `valueSize` over a sequence's elements. -/
def valueSizeArr : List Value → Nat
  | [] => 1
  | x :: xs => valueSize x + valueSizeArr xs + 1

/-- `valueSize` over an object's entries. -/
def valueSizeL : List (String × Value) → Nat
  | [] => 1
  | (_, x) :: kvs => valueSize x + valueSizeL kvs + 1
end

/-! ## Association-list lemmas -/

theorem lookupv_append_some {es fs : List (String × Mask)} {k : String} {v : Mask}
    (h : lookupv es k = some v) : lookupv (es ++ fs) k = some v := by
  induction es with
  | nil => simp [lookupv] at h
  | cons e es ih =>
    obtain ⟨k', v'⟩ := e
    simp only [List.cons_append, lookupv] at h ⊢
    by_cases hk : k' = k
    · rwa [if_pos hk] at h ⊢
    · rw [if_neg hk] at h ⊢
      exact ih h

theorem lookupv_append_none {es fs : List (String × Mask)} {k : String}
    (h : lookupv es k = none) : lookupv (es ++ fs) k = lookupv fs k := by
  induction es with
  | nil => simp [lookupv]
  | cons e es ih =>
    obtain ⟨k', v'⟩ := e
    simp only [List.cons_append, lookupv] at h ⊢
    by_cases hk : k' = k
    · rw [if_pos hk] at h
      exact absurd h (by simp)
    · rw [if_neg hk] at h ⊢
      exact ih h

theorem lookupv_setKey_self (es : List (String × Mask)) (k : String) (v : Mask) :
    lookupv (setKey es k v) k = some v := by
  induction es with
  | nil => simp [setKey, lookupv]
  | cons e es ih =>
    obtain ⟨k', v'⟩ := e
    by_cases hk : k' = k
    · simp [setKey, lookupv, hk]
    · simp only [setKey, if_neg hk, lookupv]
      exact ih

theorem lookupv_setKey_ne (es : List (String × Mask)) {k j : String} (v : Mask)
    (h : j ≠ k) : lookupv (setKey es k v) j = lookupv es j := by
  induction es with
  | nil => simp [setKey, lookupv, Ne.symm h]
  | cons e es ih =>
    obtain ⟨k', v'⟩ := e
    by_cases hk : k' = k
    · subst hk
      simp only [setKey, if_pos rfl, lookupv]
      rw [if_neg (Ne.symm h), if_neg (Ne.symm h)]
    · simp only [setKey, if_neg hk, lookupv]
      by_cases hj : k' = j
      · rw [if_pos hj, if_pos hj]
      · rw [if_neg hj, if_neg hj]
        exact ih

theorem lookupv_delKey_self (es : List (String × Mask)) (k : String) :
    lookupv (delKey es k) k = none := by
  induction es with
  | nil => simp [delKey, lookupv]
  | cons e es ih =>
    obtain ⟨k', v'⟩ := e
    by_cases hk : k' = k
    · simpa [delKey, hk] using ih
    · simp only [delKey, if_neg hk, lookupv]
      exact ih

theorem lookupv_delKey_ne (es : List (String × Mask)) {k j : String}
    (h : j ≠ k) : lookupv (delKey es k) j = lookupv es j := by
  induction es with
  | nil => simp [delKey, lookupv]
  | cons e es ih =>
    obtain ⟨k', v'⟩ := e
    by_cases hk : k' = k
    · subst hk
      simp only [delKey, if_pos rfl, lookupv]
      rw [if_neg (Ne.symm h)]
      exact ih
    · simp only [delKey, if_neg hk, lookupv]
      by_cases hj : k' = j
      · rw [if_pos hj, if_pos hj]
      · rw [if_neg hj, if_neg hj]
        exact ih

theorem lookupv_invertL (es : List (String × Mask)) (k : String) :
    lookupv (invertL es) k = (lookupv es k).map invert := by
  induction es with
  | nil => simp [invertL, lookupv]
  | cons e es ih =>
    obtain ⟨k', v⟩ := e
    by_cases hk : k' = k
    · simp [invertL, lookupv, hk]
    · simp only [invertL, lookupv]
      rw [if_neg hk, if_neg hk]
      exact ih

theorem lookupv_mem {es : List (String × Mask)} {k : String} {v : Mask}
    (h : lookupv es k = some v) : (k, v) ∈ es := by
  induction es with
  | nil => simp [lookupv] at h
  | cons e es ih =>
    obtain ⟨k', v'⟩ := e
    by_cases hk : k' = k
    · subst hk
      simp [lookupv] at h
      rw [← h]
      exact List.mem_cons_self _ _
    · simp only [lookupv, if_neg hk] at h
      exact List.mem_cons_of_mem _ (ih h)

theorem lookupv_eq_none_of_not_mem {es : List (String × Mask)} {k : String}
    (h : k ∉ es.map Prod.fst) : lookupv es k = none := by
  induction es with
  | nil => simp [lookupv]
  | cons e es ih =>
    obtain ⟨k', v'⟩ := e
    simp only [List.map_cons, List.mem_cons, not_or] at h
    simp only [lookupv]
    rw [if_neg (Ne.symm h.1)]
    exact ih h.2

/-! ## Simple `subMask` facts -/

theorem subMask_bool (b : Bool) (ps : List String) :
    subMask (Mask.bool b) ps = Mask.bool b := by
  cases ps <;> rfl

theorem subMask_scalar (n : Nat) (ps : List String) :
    subMask (Mask.scalar n) ps = Mask.scalar n := by
  cases ps <;> rfl

/-- `invert` of an object is again an object. -/
theorem invert_node_is_node (es : List (String × Mask)) :
    ∃ fs, invert (Mask.node es) = Mask.node fs := by
  rw [invert]
  rcases lookupv (invertL es) "_" with _ | w
  · exact ⟨_, rfl⟩
  · exact ⟨_, rfl⟩

/-! ## Duality of `invert` (claim C4) -/

/-- Shape of `invert` on an object without a wildcard: entries are inverted
and `_: true` is appended. -/
theorem invert_node_wild_none {es : List (String × Mask)}
    (hw : lookupv es "_" = none) :
    invert (Mask.node es) = Mask.node (invertL es ++ [("_", Mask.bool true)]) := by
  simp only [invert]
  rw [lookupv_invertL, hw]
  rfl

/-- Shape of `invert` on an object with a wildcard: entries are inverted and
the wildcard entry is deleted when its inverted value is falsy. -/
theorem invert_node_wild_some {es : List (String × Mask)} {w : Mask}
    (hw : lookupv es "_" = some w) :
    invert (Mask.node es) =
      Mask.node (if truthy (invert w) then invertL es else delKey (invertL es) "_") := by
  simp only [invert]
  rw [lookupv_invertL, hw]
  rfl

/-- Inversion duality on every path whose resolved sub-mask is a boolean:
inverting the mask negates the resolution.  (Partial paths that resolve to an
object node are not covered; the counterexample below shows the claim fails
on them.) -/
theorem invert_subMask_bool :
    ∀ (ps : List String) (m : Mask) (b : Bool), "_" ∉ ps →
      subMask m ps = Mask.bool b → subMask (invert m) ps = Mask.bool (!b) := by
  intro ps
  induction ps with
  | nil =>
    intro m b _ h
    simp only [subMask] at h ⊢
    subst h
    simp [invert]
  | cons k rest ih =>
    intro m b hni h
    have hk : k ≠ "_" := fun hh => hni (hh ▸ List.mem_cons_self k rest)
    have hrest : "_" ∉ rest := fun hh => hni (List.mem_cons_of_mem _ hh)
    cases m with
    | bool b' =>
      rw [subMask_bool] at h
      simp only [Mask.bool.injEq] at h
      subst h
      simp [invert, subMask_bool]
    | scalar n =>
      rw [subMask_scalar] at h
      exact Mask.noConfusion h
    | node es =>
      rcases hek : lookupv es k with _ | v
      · -- the key is absent: resolution falls to the wildcard slot
        rcases hw : lookupv es "_" with _ | w
        · -- no wildcard either: the mask resolves to `false`
          simp only [subMask, hek, hw] at h
          simp only [Mask.bool.injEq] at h
          subst h
          rw [invert_node_wild_none hw]
          simp only [subMask]
          rw [lookupv_append_none (by rw [lookupv_invertL, hek]; rfl),
              lookupv_append_none (by rw [lookupv_invertL, hw]; rfl)]
          simp [lookupv, Ne.symm hk, subMask_bool]
        · simp only [subMask, hek, hw] at h
          rw [invert_node_wild_some hw]
          cases w with
          | bool bw =>
            cases bw with
            | true =>
              rw [subMask_bool] at h
              simp only [Mask.bool.injEq] at h
              subst h
              have : truthy (invert (Mask.bool true)) = false := by simp [invert, truthy]
              rw [this]
              simp only [Bool.false_eq_true, if_false, subMask]
              rw [lookupv_delKey_ne _ hk, lookupv_invertL, hek]
              rw [lookupv_delKey_self]
              rfl
            | false =>
              rw [subMask_bool] at h
              simp only [Mask.bool.injEq] at h
              subst h
              have : truthy (invert (Mask.bool false)) = true := by simp [invert, truthy]
              rw [this]
              simp only [if_true, subMask]
              rw [lookupv_invertL, hek, lookupv_invertL, hw]
              simp only [Option.map_none', Option.map_some']
              have hb : invert (Mask.bool false) = Mask.bool true := by simp [invert]
              rw [hb, subMask_bool]
              rfl
          | scalar n =>
            rw [subMask_scalar] at h
            exact Mask.noConfusion h
          | node fs =>
            have htr : truthy (invert (Mask.node fs)) = true := by
              obtain ⟨gs, hgs⟩ := invert_node_is_node fs
              rw [hgs]; rfl
            rw [htr]
            simp only [if_true, subMask]
            rw [lookupv_invertL, hek, lookupv_invertL, hw]
            simp only [Option.map_none', Option.map_some']
            exact ih (Mask.node fs) b hrest h
      · -- the key is present
        simp only [subMask, hek] at h
        have hlk : lookupv (invertL es) k = some (invert v) := by
          rw [lookupv_invertL, hek]; rfl
        rcases hw : lookupv es "_" with _ | w
        · rw [invert_node_wild_none hw]
          simp only [subMask]
          rw [lookupv_append_some hlk]
          exact ih v b hrest h
        · rw [invert_node_wild_some hw]
          cases hti : truthy (invert w) with
          | true =>
            rw [if_pos rfl]
            simp only [subMask, hlk]
            exact ih v b hrest h
          | false =>
            rw [if_neg (by simp)]
            simp only [subMask]
            rw [lookupv_delKey_ne _ hk, hlk]
            exact ih v b hrest h

/-! ## Claim theorems: C3, C4, C6, C7, C8 -/

/-- Claim C3: `addMasks` applied to `{str1:true, obj:{foo:true, bar:true}}`
and `{str1:true, obj:{_:true, foo:false}}` returns a mask whose internal tree
is structurally exactly `{str1:true, obj:{_:true}}`: after the merge both
`foo` and `bar` resolve to `true`, deep-equal to the wildcard's sub-mask, and
are deleted in favour of the implicit wildcard. -/
theorem addMasks_scenario :
    ObjectMask.addMasks
      [Mask.node [("str1", Mask.bool true),
                  ("obj", Mask.node [("foo", Mask.bool true), ("bar", Mask.bool true)])],
       Mask.node [("str1", Mask.bool true),
                  ("obj", Mask.node [("_", Mask.bool true), ("foo", Mask.bool false)])]] =
    Mask.node [("str1", Mask.bool true), ("obj", Mask.node [("_", Mask.bool true)])] := rfl

/-- Claim C4 (amended): for every mask `m` and every concrete wildcard-free
dotted path whose resolved sub-mask in `m` is a boolean (in particular every
path resolving to a leaf), `checkPath` on `invertMask m` is the negation of
`checkPath` on `m`. -/
theorem checkPath_invertMask (m : Mask) (ps : List String) (b : Bool)
    (hps : "_" ∉ ps) (hres : subMask m ps = Mask.bool b) :
    ObjectMask.checkPath (ObjectMask.invertMask m) ps = !ObjectMask.checkPath m ps := by
  have h2 := invert_subMask_bool ps m b hps hres
  rw [ObjectMask.checkPath, ObjectMask.checkPath, ObjectMask.invertMask, hres, h2]
  cases b <;> rfl

/-- Counterexample to claim C4 as stated: on the valid mask `{a: {b: true}}`
and the concrete path `a` (which resolves to the interior node `{b: true}`),
`checkPath` is `false` both on the mask and on its inversion, so inversion
does not negate `checkPath` for every concrete path. -/
theorem checkPath_invertMask_ce :
    ObjectMask.checkPath (Mask.node [("a", Mask.node [("b", Mask.bool true)])]) ["a"] = false ∧
    ObjectMask.checkPath
      (ObjectMask.invertMask (Mask.node [("a", Mask.node [("b", Mask.bool true)])])) ["a"] = false ∧
    strictValid (Mask.node [("a", Mask.node [("b", Mask.bool true)])]) = true :=
  ⟨rfl, rfl, rfl⟩

/-- Witness for `checkPath_invertMask` at the mask `{a: false}` and the
leaf-resolving path `a.b`. -/
theorem checkPath_invertMask_witness :
    ObjectMask.checkPath
      (ObjectMask.invertMask (Mask.node [("a", Mask.bool false)])) ["a", "b"] =
    !ObjectMask.checkPath (Mask.node [("a", Mask.bool false)]) ["a", "b"] :=
  checkPath_invertMask (Mask.node [("a", Mask.bool false)]) ["a", "b"] false
    (by decide) rfl

/-- Claim C6 is contradicted by the code (code bug): subtracting the valid
boolean-leaved mask `{x: false, _: true}` from the valid mask `{_: true}`
reaches the both-wildcards branch with `a._ = subtract(true, true) = false`,
and the strict-mode write `a._['x'] = ...` whose base is the primitive
`false` raises a TypeError — not the documented invalid-operation error, on
masks whose leaves are all booleans.  (Additionally, equal non-boolean
scalars do not throw: `subtract(5, 5)` returns `false` via the `isEqual`
base case, against the claim's "exactly when".) -/
theorem subtractMasks_typeError_on_valid_masks :
    ObjectMask.subtractMasks (Mask.node [("_", Mask.bool true)])
        (Mask.node [("x", Mask.bool false), ("_", Mask.bool true)]) =
      Except.error MaskErr.typeErr ∧
    strictValid (Mask.node [("_", Mask.bool true)]) = true ∧
    strictValid (Mask.node [("x", Mask.bool false), ("_", Mask.bool true)]) = true ∧
    subtract (Mask.scalar 5) (Mask.scalar 5) = Except.ok (Mask.bool false) :=
  ⟨rfl, rfl, rfl, rfl⟩

/-- Claim C7 is contradicted by the code (code bug): on the valid mask
`true` the path `a` is allowed, so `removeField` enters its materialization
loop, whose first write `submask['a'] = ...` has the primitive `true` as its
base and raises a strict-mode TypeError.  The wildcard guard itself behaves
as claimed (third conjunct), and a disallowed path is a no-op returning the
receiver (fourth conjunct). -/
theorem removeField_typeError_on_true_mask :
    ObjectMask.removeField (Mask.bool true) ["a"] = Except.error RfErr.typeErr ∧
    strictValid (Mask.bool true) = true ∧
    ObjectMask.removeField (Mask.node [("a", Mask.bool true)]) ["a", "_"] =
      Except.error RfErr.wildcard ∧
    ObjectMask.removeField (Mask.node [("a", Mask.bool true)]) ["b"] =
      Except.ok (Mask.node [("a", Mask.bool true)]) :=
  ⟨rfl, rfl, rfl, rfl⟩

/-- Claim C8: `createMaskFromFieldList ["foo", "bar.baz", "bar.baz.biz"]`
inserts paths longest dotted form first, so the shorter `bar.baz` overwrites
the finer structure of `bar.baz.biz` with exactly `true`; the resulting tree
is (up to JS key order, which lists `bar` first because longer paths are
inserted first) exactly `{foo: true, bar: {baz: true}}`, as the deep-equality
conjunct states. -/
theorem createMaskFromFieldList_scenario :
    ObjectMask.createMaskFromFieldList [["foo"], ["bar", "baz"], ["bar", "baz", "biz"]] =
      Mask.node [("bar", Mask.node [("baz", Mask.bool true)]), ("foo", Mask.bool true)] ∧
    deepEquals
      (ObjectMask.createMaskFromFieldList [["foo"], ["bar", "baz"], ["bar", "baz", "biz"]])
      (Mask.node [("foo", Mask.bool true), ("bar", Mask.node [("baz", Mask.bool true)])]) = true :=
  ⟨rfl, rfl⟩

/-! ## Idempotence of `filterObject` (claim C5) -/

theorem filterDeep_true (v : Value) (p : List String) :
    filterDeep v (Mask.bool true) p = (some v, []) := by
  cases v <;> rfl

theorem filterDeep_bool_false (v : Value) (p : List String) :
    filterDeep v (Mask.bool false) p = (none, [p]) := by
  cases v <;> rfl

theorem filterDeep_mask_scalar (v : Value) (n : Nat) (p : List String) :
    filterDeep v (Mask.scalar n) p = (none, [p]) := by
  cases v <;> rfl

theorem filterDeep_scalar_node (k : Nat) (es : List (String × Mask)) (p : List String) :
    filterDeep (Value.scalar k) (Mask.node es) p = (none, [p]) := rfl

theorem filterDeep_obj_node (kvs : List (String × Value)) (es : List (String × Mask))
    (p : List String) :
    filterDeep (Value.obj kvs) (Mask.node es) p =
      (some (Value.obj (filterEntries kvs es p).1), (filterEntries kvs es p).2) := rfl

theorem filterEntries_cons (k : String) (x : Value) (kvs : List (String × Value))
    (es : List (String × Mask)) (p : List String) :
    filterEntries ((k, x) :: kvs) es p =
      (match (filterDeep x (resolveMask es k) (p ++ [k])).1 with
       | some v => (k, v) :: (filterEntries kvs es p).1
       | none => (filterEntries kvs es p).1,
       (filterDeep x (resolveMask es k) (p ++ [k])).2 ++ (filterEntries kvs es p).2) := rfl

theorem valueSizeL_pos : ∀ l : List (String × Value), 1 ≤ valueSizeL l
  | [] => le_refl 1
  | (_, x) :: kvs => by simp only [valueSizeL]; omega

theorem valueSizeL_cons (k : String) (x : Value) (kvs : List (String × Value)) :
    valueSizeL ((k, x) :: kvs) = valueSize x + valueSizeL kvs + 1 := rfl

/-- Core induction for idempotence: refiltering a filtered sequence-free
value (at the same path, with the same mask) returns it unchanged. -/
theorem filterDeep_idem :
    ∀ (n : Nat) (v : Value), valueSize v ≤ n → ∀ (m : Mask) (p : List String) (w : Value),
      seqFree v = true → (filterDeep v m p).1 = some w → (filterDeep w m p).1 = some w := by
  intro n
  induction n with
  | zero =>
    intro v hv
    cases v <;> simp [valueSize] at hv
  | succ n ih =>
    intro v hv m p w hsf h
    cases m with
    | bool b =>
      cases b with
      | true =>
        rw [filterDeep_true] at h
        simp only [Option.some.injEq] at h
        subst h
        rw [filterDeep_true]
      | false =>
        rw [filterDeep_bool_false] at h
        exact absurd h (by simp)
    | scalar nn =>
      rw [filterDeep_mask_scalar] at h
      exact absurd h (by simp)
    | node es =>
      cases v with
      | scalar k =>
        rw [filterDeep_scalar_node] at h
        exact absurd h (by simp)
      | arr xs => simp [seqFree] at hsf
      | obj kvs =>
        rw [filterDeep_obj_node] at h
        simp only [Option.some.injEq] at h
        subst h
        rw [filterDeep_obj_node]
        simp only [Option.some.injEq, Value.obj.injEq]
        have hszl : valueSizeL kvs ≤ n := by
          simp only [valueSize] at hv; omega
        have hsfl : seqFreeL kvs = true := by simpa [seqFree] using hsf
        clear hv hsf
        induction kvs with
        | nil => rfl
        | cons e rest ihl =>
          obtain ⟨k, x⟩ := e
          have hx : valueSize x ≤ n := by
            rw [valueSizeL_cons] at hszl
            have := valueSizeL_pos rest
            omega
          have hrest : valueSizeL rest ≤ n := by
            rw [valueSizeL_cons] at hszl
            have h1 : 1 ≤ valueSize x := by cases x <;> simp [valueSize]
            omega
          have hsfx : seqFree x = true := by
            simp [seqFreeL] at hsfl; exact hsfl.1
          have hsfr : seqFreeL rest = true := by
            simp [seqFreeL] at hsfl; exact hsfl.2
          rw [filterEntries_cons]
          rcases hr : (filterDeep x (resolveMask es k) (p ++ [k])).1 with _ | wx
          · simpa using ihl hrest hsfr
          · have hre := ih x hx (resolveMask es k) (p ++ [k]) wx hsfx hr
            rw [filterEntries_cons, hre]
            simp only
            rw [ihl hrest hsfr]

/-- Claim C5 (amended): `filterObject` is idempotent on sequence-free values,
the refiltered result being identical (hence deep-equal) to the filtered one.
On sequences idempotence fails (see the counterexample): dropped elements
re-index the kept ones under different concrete numeric mask keys. -/
theorem filterObject_idempotent_seqFree (m : Mask) (v w : Value)
    (hv : seqFree v = true) (h : ObjectMask.filterObject m v = some w) :
    ObjectMask.filterObject m w = some w :=
  filterDeep_idem (valueSize v) v (le_refl _) m [] w hv h

/-- Counterexample to claim C5 as stated: filtering `[10, 20]` through the
mask `{0: false, 1: true}` keeps only the second element, re-indexed to
position 0; filtering the result again drops it (index 0 is masked), so the
twice-filtered value `[]` is not deep-equal to the once-filtered `[20]`. -/
theorem filterObject_idempotent_ce :
    ObjectMask.filterObject (Mask.node [("0", Mask.bool false), ("1", Mask.bool true)])
        (Value.arr [Value.scalar 10, Value.scalar 20]) = some (Value.arr [Value.scalar 20]) ∧
    ObjectMask.filterObject (Mask.node [("0", Mask.bool false), ("1", Mask.bool true)])
        (Value.arr [Value.scalar 20]) = some (Value.arr []) ∧
    deepEqualsV (Value.arr []) (Value.arr [Value.scalar 20]) = false :=
  ⟨rfl, rfl, rfl⟩

/-- Witness for `filterObject_idempotent_seqFree` at the mask
`{a: true}` and the object `{a: 1, b: 2}`. -/
theorem filterObject_idempotent_seqFree_witness :
    ObjectMask.filterObject (Mask.node [("a", Mask.bool true)])
      (Value.obj [("a", Value.scalar 1)]) = some (Value.obj [("a", Value.scalar 1)]) :=
  filterObject_idempotent_seqFree (Mask.node [("a", Mask.bool true)])
    (Value.obj [("a", Value.scalar 1), ("b", Value.scalar 2)])
    (Value.obj [("a", Value.scalar 1)]) (by decide) rfl

/-! ## Dotted-form equivalence (claim C9) -/

theorem collapse_scalar (k : Nat) (p : List String) :
    collapse (Value.scalar k) p = [(p, Value.scalar k)] := rfl

theorem collapse_obj (kvs : List (String × Value)) (p : List String) :
    collapse (Value.obj kvs) p = collapseEntries kvs p := rfl

theorem collapseEntries_cons (k : String) (x : Value) (kvs : List (String × Value))
    (p : List String) :
    collapseEntries ((k, x) :: kvs) p = collapse x (p ++ [k]) ++ collapseEntries kvs p := rfl

theorem collapseElems_cons (x : Value) (xs : List Value) (i : Nat) (p : List String) :
    collapseElems (x :: xs) i p =
      collapse x (p ++ [toString i]) ++ collapseElems xs (i + 1) p := rfl

/-- `collapse` accumulates the path prefix by prepending it to every key. -/
theorem collapse_shift :
    ∀ (n : Nat) (v : Value), valueSize v ≤ n → ∀ (p : List String),
      collapse v p = (collapse v []).map (fun kv => (p ++ kv.1, kv.2)) := by
  intro n
  induction n with
  | zero => intro v hv; cases v <;> simp [valueSize] at hv
  | succ n ih =>
    intro v hv p
    cases v with
    | scalar k => simp [collapse_scalar]
    | obj kvs =>
      have hszl : valueSizeL kvs ≤ n := by simp only [valueSize] at hv; omega
      simp only [collapse_obj]
      clear hv
      induction kvs with
      | nil => simp [collapseEntries]
      | cons e rest ihl =>
        obtain ⟨k, x⟩ := e
        have hx : valueSize x ≤ n := by
          simp only [valueSizeL] at hszl
          have := valueSizeL_pos rest
          omega
        have hrest : valueSizeL rest ≤ n := by
          simp only [valueSizeL] at hszl
          have h1 : 1 ≤ valueSize x := by cases x <;> simp [valueSize]
          omega
        simp only [collapseEntries_cons, List.nil_append]
        rw [ih x hx (p ++ [k]), ih x hx [k], ihl hrest]
        simp [List.map_map, List.map_append, Function.comp, List.append_assoc]
    | arr xs =>
      have hszl : valueSizeArr xs ≤ n := by simp only [valueSize] at hv; omega
      simp only [collapse]
      suffices hgen : ∀ (ys : List Value), valueSizeArr ys ≤ n → ∀ (i : Nat) (q : List String),
          collapseElems ys i q = (collapseElems ys i []).map (fun kv => (q ++ kv.1, kv.2)) by
        exact hgen xs hszl 0 p
      intro ys
      induction ys with
      | nil => intro _ i q; simp [collapseElems]
      | cons x rest ihl =>
        intro hsz i q
        have hx : valueSize x ≤ n := by
          simp only [valueSizeArr] at hsz
          have h2 : 1 ≤ valueSizeArr rest := by
            cases rest
            · simp [valueSizeArr]
            · simp only [valueSizeArr]; omega
          omega
        have hrest : valueSizeArr rest ≤ n := by
          simp only [valueSizeArr] at hsz
          have h1 : 1 ≤ valueSize x := by cases x <;> simp [valueSize]
          omega
        simp only [collapseElems_cons, List.nil_append]
        rw [ih x hx (q ++ [toString i]), ih x hx [toString i], ihl hrest (i + 1) q]
        simp [List.map_map, List.map_append, Function.comp, List.append_assoc]

/-- Walking one segment of a path through an object mask resolves to the key
or wildcard value, exactly as `resolveMask` computes it. -/
theorem subMask_node_resolve (es : List (String × Mask)) (k : String) (q : List String) :
    subMask (Mask.node es) (k :: q) = subMask (resolveMask es k) q := by
  rcases hek : lookupv es k with _ | v
  · rcases hw : lookupv es "_" with _ | w
    · simp only [subMask, resolveMask, hek, hw, subMask_bool]
    · simp only [subMask, resolveMask, hek, hw]
  · simp only [subMask, resolveMask, hek]

theorem list_filter_over_map {α β : Type} (f : α → β) (p : β → Bool) :
    ∀ l : List α, (l.map f).filter p = (l.filter (fun a => p (f a))).map f := by
  intro l
  induction l with
  | nil => rfl
  | cons a l ih =>
    simp only [List.map_cons, List.filter_cons]
    by_cases h : p (f a) = true
    · simp [h, ih]
    · simp [h, ih]

/-- Core of claim C9: on sequence-free values, filtering the collapsed
dotted map by `checkPath` gives exactly the collapsed form of the
structure-filtered value. -/
theorem collapse_filter_comm :
    ∀ (n : Nat) (v : Value), valueSize v ≤ n → seqFree v = true →
      ∀ (m : Mask) (p : List String),
        (collapse v []).filter (fun kv => ObjectMask.checkPath m kv.1) =
          ((filterDeep v m p).1.elim [] (fun w => collapse w [])) := by
  intro n
  induction n with
  | zero => intro v hv; cases v <;> simp [valueSize] at hv
  | succ n ih =>
    intro v hv hsf m p
    cases m with
    | bool b =>
      cases b with
      | true =>
        rw [filterDeep_true]
        simp only [Option.elim]
        rw [List.filter_eq_self]
        intro kv _
        simp [ObjectMask.checkPath, subMask_bool, isTrueMask]
      | false =>
        rw [filterDeep_bool_false]
        simp only [Option.elim]
        rw [List.filter_eq_nil_iff]
        intro kv _
        simp [ObjectMask.checkPath, subMask_bool, isTrueMask]
    | scalar nn =>
      rw [filterDeep_mask_scalar]
      simp only [Option.elim]
      rw [List.filter_eq_nil_iff]
      intro kv _
      simp [ObjectMask.checkPath, subMask_scalar, isTrueMask]
    | node es =>
      cases v with
      | scalar k =>
        rw [filterDeep_scalar_node]
        simp [collapse_scalar, ObjectMask.checkPath, subMask, isTrueMask]
      | arr xs => simp [seqFree] at hsf
      | obj kvs =>
        rw [filterDeep_obj_node]
        simp only [Option.elim]
        have hszl : valueSizeL kvs ≤ n := by simp only [valueSize] at hv; omega
        have hsfl : seqFreeL kvs = true := by simpa [seqFree] using hsf
        clear hv hsf
        simp only [collapse_obj]
        induction kvs with
        | nil => rfl
        | cons e rest ihl =>
          obtain ⟨k, x⟩ := e
          have hx : valueSize x ≤ n := by
            simp only [valueSizeL] at hszl
            have := valueSizeL_pos rest
            omega
          have hrest : valueSizeL rest ≤ n := by
            simp only [valueSizeL] at hszl
            have h1 : 1 ≤ valueSize x := by cases x <;> simp [valueSize]
            omega
          have hsfx : seqFree x = true := by
            simp [seqFreeL] at hsfl; exact hsfl.1
          have hsfr : seqFreeL rest = true := by
            simp [seqFreeL] at hsfl; exact hsfl.2
          rw [collapseEntries_cons, List.nil_append, List.filter_append]
          rw [collapse_shift (valueSize x) x (le_refl _) [k]]
          rw [list_filter_over_map]
          have hpred : ∀ kv : List String × Value,
              ObjectMask.checkPath (Mask.node es) (([k] ++ kv.1 : List String)) =
              ObjectMask.checkPath (resolveMask es k) kv.1 := by
            intro kv
            simp only [List.singleton_append, ObjectMask.checkPath, subMask_node_resolve]
          simp only [hpred]
          rw [ih x hx hsfx (resolveMask es k) (p ++ [k])]
          rw [filterEntries_cons]
          rcases hr : (filterDeep x (resolveMask es k) (p ++ [k])).1 with _ | wx
          · simp only [Option.elim, List.map_nil, List.nil_append]
            exact ihl hrest hsfr
          · simp only [Option.elim]
            rw [collapseEntries_cons, List.nil_append]
            rw [collapse_shift (valueSize wx) wx (le_refl _) [k]]
            rw [ihl hrest hsfr]

/-- Claim C9 (amended): on sequence-free values the dotted form agrees with
the structured form entry-by-entry: `filterDottedObject` applied to
`collapseToDotted v` keeps exactly the dotted leaf entries that survive
`filterObject` (it equals the collapsed filtered value), and hence
`getDottedMaskedOutFields` returns the complementary dotted leaf paths.  The
counterexample shows the claim as stated fails in two ways:
`getMaskedOutFields` reports a fully-excluded branch once, at the highest
excluded level, while the dotted form lists every leaf under it; and on
sequences the dotted form keeps original indices while `filterObject`
re-indexes. -/
theorem filterDottedObject_collapse (m : Mask) (v : Value) (hv : seqFree v = true) :
    ObjectMask.filterDottedObject m (collapseToDotted v) =
      (ObjectMask.filterObject m v).elim [] collapseToDotted := by
  cases v with
  | scalar k =>
    cases m with
    | bool b => cases b <;> rfl
    | scalar nn => rfl
    | node es => rfl
  | arr xs => simp [seqFree] at hv
  | obj kvs =>
    have hcore := collapse_filter_comm (valueSize (Value.obj kvs)) (Value.obj kvs)
      (le_refl _) hv m []
    show (collapse (Value.obj kvs) []).filter (fun kv => ObjectMask.checkPath m kv.1) = _
    rw [hcore]
    show ((filterDeep (Value.obj kvs) m []).1.elim [] fun w => collapse w []) = _
    rcases hres : (filterDeep (Value.obj kvs) m []).1 with _ | w
    · show ((none : Option Value).elim [] fun w => collapse w []) =
        (ObjectMask.filterObject m (Value.obj kvs)).elim [] collapseToDotted
      rw [show ObjectMask.filterObject m (Value.obj kvs) = none from hres]
      rfl
    · have hobj : ∃ res, w = Value.obj res := by
        cases m with
        | bool b =>
          cases b with
          | true =>
            rw [filterDeep_true] at hres
            simp only [Option.some.injEq] at hres
            exact ⟨kvs, hres.symm⟩
          | false =>
            rw [filterDeep_bool_false] at hres
            exact absurd hres (by simp)
        | scalar nn =>
          rw [filterDeep_mask_scalar] at hres
          exact absurd hres (by simp)
        | node es =>
          rw [filterDeep_obj_node] at hres
          simp only [Option.some.injEq] at hres
          exact ⟨_, hres.symm⟩
      obtain ⟨res, hres2⟩ := hobj
      subst hres2
      show ((some (Value.obj res)).elim [] fun w => collapse w []) =
        (ObjectMask.filterObject m (Value.obj kvs)).elim [] collapseToDotted
      rw [show ObjectMask.filterObject m (Value.obj kvs) = some (Value.obj res) from hres]
      rfl

/-- Counterexample to claim C9 as stated.  First part: for the mask
`{x: false}` and the value `{x: {y: 1, z: 2}}`, `getMaskedOutFields` reports
`['x']` (the highest excluded level) while `getDottedMaskedOutFields` on the
collapsed value reports the leaves `['x.y', 'x.z']` — the path `x.y` is in
one set and not the other.  Second part: on the sequence `[1, 2]` with mask
`{0: false, _: true}` the dotted form keeps the entry at its original index
`1` while `filterObject` re-indexes the kept element to `0`, so
`filterDottedObject ∘ collapse` and `collapse ∘ filterObject` differ. -/
theorem filterDottedObject_collapse_ce :
    ObjectMask.getDottedMaskedOutFields (Mask.node [("x", Mask.bool false)])
        (collapseToDotted
          (Value.obj [("x", Value.obj [("y", Value.scalar 1), ("z", Value.scalar 2)])])) =
      [["x", "y"], ["x", "z"]] ∧
    ObjectMask.getMaskedOutFields (Mask.node [("x", Mask.bool false)])
        (Value.obj [("x", Value.obj [("y", Value.scalar 1), ("z", Value.scalar 2)])]) =
      [["x"]] ∧
    (["x", "y"] ∈ ObjectMask.getDottedMaskedOutFields (Mask.node [("x", Mask.bool false)])
        (collapseToDotted
          (Value.obj [("x", Value.obj [("y", Value.scalar 1), ("z", Value.scalar 2)])])) ∧
     ["x", "y"] ∉ ObjectMask.getMaskedOutFields (Mask.node [("x", Mask.bool false)])
        (Value.obj [("x", Value.obj [("y", Value.scalar 1), ("z", Value.scalar 2)])])) ∧
    ObjectMask.filterDottedObject (Mask.node [("0", Mask.bool false), ("_", Mask.bool true)])
        (collapseToDotted (Value.arr [Value.scalar 1, Value.scalar 2])) =
      [(["1"], Value.scalar 2)] ∧
    (ObjectMask.filterObject (Mask.node [("0", Mask.bool false), ("_", Mask.bool true)])
        (Value.arr [Value.scalar 1, Value.scalar 2])).elim [] collapseToDotted =
      [(["0"], Value.scalar 2)] := by
  refine ⟨rfl, rfl, ⟨?_, ?_⟩, rfl, rfl⟩ <;> decide

/-- Witness for `filterDottedObject_collapse` at the mask `{a: true}` and
the object `{a: 1, b: 2}`. -/
theorem filterDottedObject_collapse_witness :
    ObjectMask.filterDottedObject (Mask.node [("a", Mask.bool true)])
        (collapseToDotted (Value.obj [("a", Value.scalar 1), ("b", Value.scalar 2)])) =
      (ObjectMask.filterObject (Mask.node [("a", Mask.bool true)])
        (Value.obj [("a", Value.scalar 1), ("b", Value.scalar 2)])).elim [] collapseToDotted :=
  filterDottedObject_collapse (Mask.node [("a", Mask.bool true)])
    (Value.obj [("a", Value.scalar 1), ("b", Value.scalar 2)]) (by decide)

/-! ## Size, membership and key lemmas for the mask algebra -/

theorem maskSize_pos : ∀ m : Mask, 1 ≤ maskSize m
  | Mask.bool _ => le_refl 1
  | Mask.scalar _ => le_refl 1
  | Mask.node es => by simp only [maskSize]; omega

theorem maskSizeL_pos : ∀ es : List (String × Mask), 1 ≤ maskSizeL es
  | [] => le_refl 1
  | (_, v) :: es => by simp only [maskSizeL]; omega

theorem maskSize_of_mem : ∀ (es : List (String × Mask)) (k : String) (v : Mask),
    (k, v) ∈ es → maskSize v < maskSizeL es := by
  intro es
  induction es with
  | nil => intro k v h; simp at h
  | cons e rest ih =>
    intro k v h
    rcases List.mem_cons.mp h with h1 | h1
    · subst h1
      simp only [maskSizeL]
      have := maskSizeL_pos rest
      omega
    · obtain ⟨k', v'⟩ := e
      have := ih k v h1
      simp only [maskSizeL]
      omega

theorem maskSize_of_lookup {es : List (String × Mask)} {k : String} {v : Mask}
    (h : lookupv es k = some v) : maskSize v < maskSizeL es :=
  maskSize_of_mem es k v (lookupv_mem h)

theorem maskSize_node (es : List (String × Mask)) :
    maskSize (Mask.node es) = maskSizeL es + 1 := rfl

theorem lookupv_none_iff {es : List (String × Mask)} {k : String} :
    lookupv es k = none ↔ k ∉ es.map Prod.fst := by
  constructor
  · intro h hmem
    induction es with
    | nil => simp at hmem
    | cons e rest ih =>
      obtain ⟨k', v'⟩ := e
      simp only [lookupv] at h
      by_cases hk : k' = k
      · rw [if_pos hk] at h; exact absurd h (by simp)
      · rw [if_neg hk] at h
        simp only [List.map_cons, List.mem_cons] at hmem
        rcases hmem with h1 | h1
        · exact hk h1.symm
        · exact ih h h1
  · exact lookupv_eq_none_of_not_mem

theorem strictValidL_mem : ∀ (es : List (String × Mask)) (k : String) (v : Mask),
    strictValidL es = true → (k, v) ∈ es → strictValid v = true := by
  intro es
  induction es with
  | nil => intro k v _ h; simp at h
  | cons e rest ih =>
    intro k v hval h
    obtain ⟨k', v'⟩ := e
    simp only [strictValidL, Bool.and_eq_true] at hval
    rcases List.mem_cons.mp h with h1 | h1
    · cases h1; exact hval.1
    · exact ih k v hval.2 h1

theorem strictValid_node_entries {es : List (String × Mask)}
    (h : strictValid (Mask.node es) = true) : strictValidL es = true := by
  cases es with
  | nil => simp [strictValid] at h
  | cons e rest => exact h

theorem strictValid_node_ne_nil {es : List (String × Mask)}
    (h : strictValid (Mask.node es) = true) : es ≠ [] := by
  intro hnil
  subst hnil
  simp [strictValid] at h

theorem strictValid_of_lookup {es : List (String × Mask)} {k : String} {v : Mask}
    (hval : strictValid (Mask.node es) = true) (h : lookupv es k = some v) :
    strictValid v = true :=
  strictValidL_mem es k v (strictValid_node_entries hval) (lookupv_mem h)

theorem wfMaskL_mem : ∀ (es : List (String × Mask)) (k : String) (v : Mask),
    wfMaskL es = true → (k, v) ∈ es → wfMask v = true := by
  intro es
  induction es with
  | nil => intro k v _ h; simp at h
  | cons e rest ih =>
    intro k v hval h
    obtain ⟨k', v'⟩ := e
    simp only [wfMaskL, Bool.and_eq_true] at hval
    rcases List.mem_cons.mp h with h1 | h1
    · cases h1; exact hval.1
    · exact ih k v hval.2 h1

theorem wfMask_node_parts {es : List (String × Mask)} (h : wfMask (Mask.node es) = true) :
    (es.map Prod.fst).Nodup ∧ wfMaskL es = true := by
  simp only [wfMask, Bool.and_eq_true] at h
  exact ⟨by simpa using h.1, h.2⟩

theorem wfMask_of_lookup {es : List (String × Mask)} {k : String} {v : Mask}
    (hwf : wfMask (Mask.node es) = true) (h : lookupv es k = some v) :
    wfMask v = true :=
  wfMaskL_mem es k v (wfMask_node_parts hwf).2 (lookupv_mem h)

/-! ## Characterizations of the `addMask` / `andMask` entry constructions -/

theorem addLeft_lookup (comb : Mask → Mask → Mask) (eb : List (String × Mask)) :
    ∀ (es : List (String × Mask)) (j : String),
      lookupv (addLeft comb eb es) j =
        (lookupv es j).map (fun v =>
          if j = "_" then v
          else
            match lookupv eb j with
            | some w => comb v w
            | none =>
                match lookupv eb "_" with
                | some bw => comb v bw
                | none => v) := by
  intro es
  induction es with
  | nil => intro j; rfl
  | cons e rest ih =>
    intro j
    obtain ⟨k, v⟩ := e
    simp only [addLeft, lookupv]
    by_cases hk : k = j
    · subst hk
      rw [if_pos rfl, if_pos rfl]
      rfl
    · rw [if_neg hk, if_neg hk]
      exact ih j

theorem addLeft_keys (comb : Mask → Mask → Mask) (eb : List (String × Mask)) :
    ∀ es : List (String × Mask), (addLeft comb eb es).map Prod.fst = es.map Prod.fst := by
  intro es
  induction es with
  | nil => rfl
  | cons e rest ih =>
    obtain ⟨k, v⟩ := e
    simp only [addLeft, List.map_cons, ih]

theorem addRight_keys_props (comb : Mask → Mask → Mask) (ea : List (String × Mask)) :
    ∀ (eb : List (String × Mask)) (j : String),
      j ∈ (addRight comb ea eb).map Prod.fst →
        j ∈ eb.map Prod.fst ∧ j ≠ "_" ∧ lookupv ea j = none := by
  intro eb
  induction eb with
  | nil => intro j h; simp [addRight] at h
  | cons e rest ih =>
    intro j h
    obtain ⟨k, w⟩ := e
    simp only [addRight] at h
    by_cases hsk : k = "_" ∨ hasKey ea k
    · rw [if_pos hsk] at h
      have := ih j h
      exact ⟨List.mem_cons_of_mem _ this.1, this.2.1, this.2.2⟩
    · rw [if_neg hsk] at h
      push_neg at hsk
      simp only [List.map_cons, List.mem_cons] at h
      rcases h with h1 | h1
      · subst h1
        refine ⟨by simp, hsk.1, ?_⟩
        have hns : ¬ (lookupv ea j).isSome = true := by simpa [hasKey] using hsk.2
        exact Option.not_isSome_iff_eq_none.mp hns
      · have := ih j h1
        exact ⟨List.mem_cons_of_mem _ this.1, this.2.1, this.2.2⟩

theorem addRight_lookup_wild (comb : Mask → Mask → Mask) (ea eb : List (String × Mask)) :
    lookupv (addRight comb ea eb) "_" = none :=
  lookupv_eq_none_of_not_mem (fun hmem => (addRight_keys_props comb ea eb "_" hmem).2.1 rfl)

theorem addRight_lookup_inA {comb : Mask → Mask → Mask} {ea eb : List (String × Mask)}
    {j : String} {u : Mask} (h : lookupv ea j = some u) :
    lookupv (addRight comb ea eb) j = none :=
  lookupv_eq_none_of_not_mem (fun hmem => by
    have hh := (addRight_keys_props comb ea eb j hmem).2.2
    rw [hh] at h
    exact Option.noConfusion h)

theorem addRight_lookup_new (comb : Mask → Mask → Mask) (ea : List (String × Mask)) :
    ∀ (eb : List (String × Mask)), (eb.map Prod.fst).Nodup →
      ∀ (j : String), j ≠ "_" → lookupv ea j = none →
        lookupv (addRight comb ea eb) j =
          (lookupv eb j).map (fun w =>
            match lookupv ea "_" with
            | some aw => comb w aw
            | none => w) := by
  intro eb
  induction eb with
  | nil => intro _ j hj ha; rfl
  | cons e rest ih =>
    intro hnd j hj ha
    obtain ⟨k, w⟩ := e
    have hnd' : (rest.map Prod.fst).Nodup := by
      simp only [List.map_cons, List.nodup_cons] at hnd; exact hnd.2
    simp only [addRight]
    by_cases hsk : k = "_" ∨ hasKey ea k
    · rw [if_pos hsk]
      by_cases hkj : k = j
      · subst hkj
        rcases hsk with h1 | h1
        · exact absurd h1 hj
        · simp only [hasKey, ha, Option.isSome_none] at h1
          exact absurd h1 (by simp)
      · rw [ih hnd' j hj ha]
        simp only [lookupv]
        rw [if_neg hkj]
    · rw [if_neg hsk]
      simp only [lookupv]
      by_cases hkj : k = j
      · rw [if_pos hkj, if_pos hkj]
        rfl
      · rw [if_neg hkj, if_neg hkj]
        exact ih hnd' j hj ha

theorem setKey_keys_of_mem (v : Mask) :
    ∀ (es : List (String × Mask)) (k : String), k ∈ es.map Prod.fst →
      (setKey es k v).map Prod.fst = es.map Prod.fst := by
  intro es
  induction es with
  | nil => intro k h; simp at h
  | cons e rest ih =>
    intro k h
    obtain ⟨k', v'⟩ := e
    simp only [setKey]
    by_cases hk : k' = k
    · rw [if_pos hk]; simp
    · rw [if_neg hk]
      simp only [List.map_cons, List.mem_cons] at h
      rcases h with h1 | h1
      · exact absurd h1.symm hk
      · simp only [List.map_cons, ih k h1]

theorem setKey_of_not_mem (v : Mask) :
    ∀ (es : List (String × Mask)) (k : String), k ∉ es.map Prod.fst →
      setKey es k v = es ++ [(k, v)] := by
  intro es
  induction es with
  | nil => intro k _; rfl
  | cons e rest ih =>
    intro k h
    obtain ⟨k', v'⟩ := e
    simp only [List.map_cons, List.mem_cons, not_or] at h
    simp only [setKey]
    rw [if_neg (fun hh => h.1 hh.symm), ih k h.2]
    rfl

theorem setKey_mem_vals (v : Mask) :
    ∀ (es : List (String × Mask)) (k : String), ∀ kv ∈ setKey es k v, kv.2 = v ∨ kv ∈ es := by
  intro es
  induction es with
  | nil =>
    intro k kv h
    simp only [setKey, List.mem_singleton] at h
    subst h
    exact Or.inl rfl
  | cons e rest ih =>
    intro k kv h
    obtain ⟨k', v'⟩ := e
    simp only [setKey] at h
    by_cases hk : k' = k
    · rw [if_pos hk] at h
      rcases List.mem_cons.mp h with h1 | h1
      · subst h1; exact Or.inl rfl
      · exact Or.inr (List.mem_cons_of_mem _ h1)
    · rw [if_neg hk] at h
      rcases List.mem_cons.mp h with h1 | h1
      · subst h1; exact Or.inr (List.mem_cons_self _ _)
      · rcases ih k kv h1 with h2 | h2
        · exact Or.inl h2
        · exact Or.inr (List.mem_cons_of_mem _ h2)

theorem delKey_sublist : ∀ (es : List (String × Mask)) (k : String), (delKey es k).Sublist es := by
  intro es
  induction es with
  | nil => intro k; simp [delKey]
  | cons e rest ih =>
    intro k
    obtain ⟨k', v'⟩ := e
    simp only [delKey]
    by_cases hk : k' = k
    · rw [if_pos hk]
      exact (ih k).cons _
    · rw [if_neg hk]
      exact (ih k).cons₂ _

theorem lookupv_filter (p : String × Mask → Bool) :
    ∀ (es : List (String × Mask)), (es.map Prod.fst).Nodup → ∀ (k : String),
      lookupv (es.filter p) k =
        match lookupv es k with
        | some v => if p (k, v) then some v else none
        | none => none := by
  intro es
  induction es with
  | nil => intro _ k; rfl
  | cons e rest ih =>
    intro hnd k
    obtain ⟨k', v'⟩ := e
    have hnd' : (rest.map Prod.fst).Nodup := by
      simp only [List.map_cons, List.nodup_cons] at hnd; exact hnd.2
    have hkn : k' ∉ rest.map Prod.fst := by
      simp only [List.map_cons, List.nodup_cons] at hnd; exact hnd.1
    simp only [List.filter_cons]
    by_cases hp : p (k', v') = true
    · rw [if_pos hp]
      simp only [lookupv]
      by_cases hk : k' = k
      · subst hk
        rw [if_pos rfl, if_pos rfl]
        simp [hp]
      · rw [if_neg hk, if_neg hk]
        exact ih hnd' k
    · rw [if_neg hp]
      simp only [lookupv]
      by_cases hk : k' = k
      · subst hk
        rw [if_pos rfl, ih hnd' k', lookupv_eq_none_of_not_mem hkn]
        simp [hp]
      · rw [if_neg hk]
        exact ih hnd' k

theorem addRight_keys_nodup (comb : Mask → Mask → Mask) (ea : List (String × Mask)) :
    ∀ eb : List (String × Mask), (eb.map Prod.fst).Nodup →
      ((addRight comb ea eb).map Prod.fst).Nodup := by
  intro eb
  induction eb with
  | nil => intro _; simp [addRight]
  | cons e rest ih =>
    intro hnd
    obtain ⟨k, w⟩ := e
    have hnd' : (rest.map Prod.fst).Nodup := by
      simp only [List.map_cons, List.nodup_cons] at hnd; exact hnd.2
    have hkn : k ∉ rest.map Prod.fst := by
      simp only [List.map_cons, List.nodup_cons] at hnd; exact hnd.1
    simp only [addRight]
    by_cases hsk : k = "_" ∨ hasKey ea k
    · rw [if_pos hsk]
      exact ih hnd'
    · rw [if_neg hsk]
      simp only [List.map_cons, List.nodup_cons]
      refine ⟨fun hmem => ?_, ih hnd'⟩
      exact hkn (addRight_keys_props comb ea rest k hmem).1

theorem addLeft_all {p : Mask → Prop} (comb : Mask → Mask → Mask)
    (eb : List (String × Mask)) :
    ∀ es : List (String × Mask),
      (∀ kv ∈ es, p kv.2) →
      (∀ (k : String) (v w : Mask), (k, v) ∈ es →
        (lookupv eb k = some w ∨ lookupv eb "_" = some w) → p (comb v w)) →
      ∀ kv ∈ addLeft comb eb es, p kv.2 := by
  intro es
  induction es with
  | nil => intro _ _ kv h; simp [addLeft] at h
  | cons e rest ih =>
    intro hes hcomb kv h
    obtain ⟨k, v⟩ := e
    simp only [addLeft] at h
    rcases List.mem_cons.mp h with h1 | h1
    · subst h1
      by_cases hk : k = "_"
      · simp only [if_pos hk]
        exact hes (k, v) (List.mem_cons_self _ _)
      · simp only [if_neg hk]
        rcases hb : lookupv eb k with _ | w
        · rcases hbw : lookupv eb "_" with _ | bw
          · simp only [hb, hbw]
            exact hes (k, v) (List.mem_cons_self _ _)
          · simp only [hb, hbw]
            exact hcomb k v bw (List.mem_cons_self _ _) (Or.inr hbw)
        · simp only [hb]
          exact hcomb k v w (List.mem_cons_self _ _) (Or.inl hb)
    · exact ih (fun kv hh => hes kv (List.mem_cons_of_mem _ hh))
        (fun k v w hm hl => hcomb k v w (List.mem_cons_of_mem _ hm) hl) kv h1

theorem addRight_all {p : Mask → Prop} (comb : Mask → Mask → Mask)
    (ea : List (String × Mask)) :
    ∀ eb : List (String × Mask),
      (∀ kv ∈ eb, p kv.2) →
      (∀ (k : String) (w aw : Mask), (k, w) ∈ eb → lookupv ea "_" = some aw →
        p (comb w aw)) →
      ∀ kv ∈ addRight comb ea eb, p kv.2 := by
  intro eb
  induction eb with
  | nil => intro _ _ kv h; simp [addRight] at h
  | cons e rest ih =>
    intro heb hcomb kv h
    obtain ⟨k, w⟩ := e
    simp only [addRight] at h
    by_cases hsk : k = "_" ∨ hasKey ea k
    · rw [if_pos hsk] at h
      exact ih (fun kv hh => heb kv (List.mem_cons_of_mem _ hh))
        (fun k w aw hm hl => hcomb k w aw (List.mem_cons_of_mem _ hm) hl) kv h
    · rw [if_neg hsk] at h
      rcases List.mem_cons.mp h with h1 | h1
      · subst h1
        rcases haw : lookupv ea "_" with _ | aw
        · simp only [haw]
          exact heb (k, w) (List.mem_cons_self _ _)
        · simp only [haw]
          exact hcomb k w aw (List.mem_cons_self _ _) haw
      · exact ih (fun kv hh => heb kv (List.mem_cons_of_mem _ hh))
          (fun k w aw hm hl => hcomb k w aw (List.mem_cons_of_mem _ hm) hl) kv h1

theorem strictValidL_of_all :
    ∀ es : List (String × Mask), (∀ kv ∈ es, strictValid kv.2 = true) →
      strictValidL es = true := by
  intro es
  induction es with
  | nil => intro _; rfl
  | cons e rest ih =>
    intro h
    obtain ⟨k, v⟩ := e
    simp only [strictValidL, Bool.and_eq_true]
    exact ⟨h (k, v) (List.mem_cons_self _ _),
      ih (fun kv hh => h kv (List.mem_cons_of_mem _ hh))⟩

theorem wfMaskL_of_all :
    ∀ es : List (String × Mask), (∀ kv ∈ es, wfMask kv.2 = true) →
      wfMaskL es = true := by
  intro es
  induction es with
  | nil => intro _; rfl
  | cons e rest ih =>
    intro h
    obtain ⟨k, v⟩ := e
    simp only [wfMaskL, Bool.and_eq_true]
    exact ⟨h (k, v) (List.mem_cons_self _ _),
      ih (fun kv hh => h kv (List.mem_cons_of_mem _ hh))⟩

theorem strictValid_node_of {es : List (String × Mask)} (hne : es ≠ [])
    (h : strictValidL es = true) : strictValid (Mask.node es) = true := by
  cases es with
  | nil => exact absurd rfl hne
  | cons e rest => exact h

theorem wfMask_node_of {es : List (String × Mask)} (hnd : (es.map Prod.fst).Nodup)
    (h : wfMaskL es = true) : wfMask (Mask.node es) = true := by
  simp [wfMask, hnd, h]

theorem addLeft_ne_nil (comb : Mask → Mask → Mask) (eb : List (String × Mask))
    {es : List (String × Mask)} (h : es ≠ []) : addLeft comb eb es ≠ [] := by
  cases es with
  | nil => exact absurd rfl h
  | cons e rest =>
    obtain ⟨k, v⟩ := e
    simp [addLeft]

theorem setKey_ne_nil (v : Mask) :
    ∀ (es : List (String × Mask)) (k : String), setKey es k v ≠ [] := by
  intro es k
  cases es with
  | nil => simp [setKey]
  | cons e rest =>
    obtain ⟨k', v'⟩ := e
    simp only [setKey]
    by_cases hk : k' = k
    · rw [if_pos hk]; simp
    · rw [if_neg hk]; simp

theorem addMaskF_node_node (fuel : Nat) (ea eb : List (String × Mask)) :
    addMaskF (fuel + 1) (Mask.node ea) (Mask.node eb) =
      Mask.node (pruneWild (addWild (addMaskF fuel) (lookupv ea "_") (lookupv eb "_")
        (addLeft (addMaskF fuel) eb ea ++ addRight (addMaskF fuel) ea eb))) := rfl

theorem addMaskF_ok :
    ∀ (fuel : Nat) (a b : Mask), maskSize a + maskSize b ≤ fuel →
      wfMask a = true → strictValid a = true → wfMask b = true → strictValid b = true →
      wfMask (addMaskF fuel a b) = true ∧ strictValid (addMaskF fuel a b) = true := by
  intro fuel
  induction fuel with
  | zero =>
    intro a b hsz _ _ _ _
    have h1 := maskSize_pos a
    have h2 := maskSize_pos b
    omega
  | succ fuel ih =>
    intro a b hsz haw hav hbw hbv
    cases a with
    | scalar n => simp [strictValid] at hav
    | bool ab =>
      cases ab with
      | true =>
        cases b with
        | bool bb => cases bb with
          | false => exact ⟨rfl, rfl⟩
          | true => exact ⟨rfl, rfl⟩
        | scalar n => exact ⟨rfl, rfl⟩
        | node eb => exact ⟨rfl, rfl⟩
      | false =>
        cases b with
        | bool bb => cases bb with
          | false => exact ⟨rfl, rfl⟩
          | true => exact ⟨rfl, rfl⟩
        | scalar n => simp [strictValid] at hbv
        | node eb => exact ⟨hbw, hbv⟩
    | node ea =>
      cases b with
      | scalar n => simp [strictValid] at hbv
      | bool bb =>
        cases bb with
        | false => exact ⟨haw, hav⟩
        | true => exact ⟨rfl, rfl⟩
      | node eb =>
        have hea := wfMask_node_parts haw
        have heb := wfMask_node_parts hbw
        have heaV := strictValid_node_entries hav
        have hebV := strictValid_node_entries hbv
        have hsz2 : maskSizeL ea + maskSizeL eb + 2 ≤ fuel + 1 := by
          simp only [maskSize_node] at hsz; omega
        -- all entries of the merged list are well-formed and valid
        have hALok : ∀ kv ∈ addLeft (addMaskF fuel) eb ea,
            wfMask kv.2 = true ∧ strictValid kv.2 = true := by
          refine @addLeft_all (fun m => wfMask m = true ∧ strictValid m = true)
            (addMaskF fuel) eb ea ?_ ?_
          · intro kv hm
            exact ⟨wfMaskL_mem ea kv.1 kv.2 hea.2 hm,
              strictValidL_mem ea kv.1 kv.2 heaV hm⟩
          · intro k v w hm hl
            have hszv := maskSize_of_mem ea k v hm
            have hszw : maskSize w < maskSizeL eb := by
              rcases hl with hl | hl
              · exact maskSize_of_lookup hl
              · exact maskSize_of_lookup hl
            refine ih v w (by omega) (wfMaskL_mem ea k v hea.2 hm)
              (strictValidL_mem ea k v heaV hm) ?_ ?_
            · rcases hl with hl | hl
              · exact wfMask_of_lookup hbw hl
              · exact wfMask_of_lookup hbw hl
            · rcases hl with hl | hl
              · exact strictValid_of_lookup hbv hl
              · exact strictValid_of_lookup hbv hl
        have hARok : ∀ kv ∈ addRight (addMaskF fuel) ea eb,
            wfMask kv.2 = true ∧ strictValid kv.2 = true := by
          refine @addRight_all (fun m => wfMask m = true ∧ strictValid m = true)
            (addMaskF fuel) ea eb ?_ ?_
          · intro kv hm
            exact ⟨wfMaskL_mem eb kv.1 kv.2 heb.2 hm,
              strictValidL_mem eb kv.1 kv.2 hebV hm⟩
          · intro k w aw hm hl
            have hszw := maskSize_of_mem eb k w hm
            have hszaw : maskSize aw < maskSizeL ea := maskSize_of_lookup hl
            exact ih w aw (by omega) (wfMaskL_mem eb k w heb.2 hm)
              (strictValidL_mem eb k w hebV hm)
              (wfMask_of_lookup haw hl) (strictValid_of_lookup hav hl)
        have hm2ok : ∀ kv ∈ addLeft (addMaskF fuel) eb ea ++ addRight (addMaskF fuel) ea eb,
            wfMask kv.2 = true ∧ strictValid kv.2 = true := by
          intro kv hm
          rcases List.mem_append.mp hm with hm | hm
          · exact hALok kv hm
          · exact hARok kv hm
        have hm3ok : ∀ kv ∈ addWild (addMaskF fuel) (lookupv ea "_") (lookupv eb "_")
            (addLeft (addMaskF fuel) eb ea ++ addRight (addMaskF fuel) ea eb),
            wfMask kv.2 = true ∧ strictValid kv.2 = true := by
          rcases hBW : lookupv eb "_" with _ | bw
          · simpa [addWild, hBW] using hm2ok
          · rcases hAW : lookupv ea "_" with _ | aw
            · simp only [addWild, hAW, hBW]
              intro kv hm
              rcases List.mem_append.mp hm with hm | hm
              · exact hm2ok kv hm
              · simp only [List.mem_singleton] at hm
                subst hm
                exact ⟨wfMask_of_lookup hbw hBW, strictValid_of_lookup hbv hBW⟩
            · simp only [addWild, hAW, hBW]
              intro kv hm
              rcases setKey_mem_vals _ _ _ kv hm with h2 | h2
              · rw [h2]
                have hszaw : maskSize aw < maskSizeL ea := maskSize_of_lookup hAW
                have hszbw : maskSize bw < maskSizeL eb := maskSize_of_lookup hBW
                exact ih aw bw (by omega) (wfMask_of_lookup haw hAW)
                  (strictValid_of_lookup hav hAW)
                  (wfMask_of_lookup hbw hBW) (strictValid_of_lookup hbv hBW)
              · exact hm2ok kv h2
        -- keys of the merged list are duplicate-free
        have hm2nd : (((addLeft (addMaskF fuel) eb ea ++ addRight (addMaskF fuel) ea eb)).map
            Prod.fst).Nodup := by
          rw [List.map_append, List.nodup_append]
          refine ⟨by rw [addLeft_keys]; exact hea.1, addRight_keys_nodup _ _ _ heb.1, ?_⟩
          intro j hj1 hj2
          have h1 : j ∈ ea.map Prod.fst := by rwa [addLeft_keys] at hj1
          have h2 := (addRight_keys_props _ _ _ j hj2).2.2
          exact (lookupv_none_iff.mp h2) h1
        have hm3nd : ((addWild (addMaskF fuel) (lookupv ea "_") (lookupv eb "_")
            (addLeft (addMaskF fuel) eb ea ++ addRight (addMaskF fuel) ea eb)).map
            Prod.fst).Nodup := by
          rcases hBW : lookupv eb "_" with _ | bw
          · simpa [addWild, hBW] using hm2nd
          · rcases hAW : lookupv ea "_" with _ | aw
            · simp only [addWild, hAW, hBW]
              rw [List.map_append, List.nodup_append]
              refine ⟨hm2nd, by simp, ?_⟩
              intro j hj1 hj2
              simp only [List.map_cons, List.map_nil, List.mem_singleton] at hj2
              subst hj2
              rw [List.map_append, List.mem_append] at hj1
              rcases hj1 with hj1 | hj1
              · rw [addLeft_keys] at hj1
                exact (lookupv_none_iff.mp hAW) hj1
              · exact (addRight_keys_props _ _ _ _ hj1).2.1 rfl
            · simp only [addWild, hAW, hBW]
              rw [setKey_keys_of_mem]
              · exact hm2nd
              · rw [List.map_append, List.mem_append]
                left
                rw [addLeft_keys]
                exact List.mem_map.mpr ⟨("_", aw), lookupv_mem hAW, rfl⟩
        -- the merged list is nonempty, and pruning keeps it so
        have hm3ne : addWild (addMaskF fuel) (lookupv ea "_") (lookupv eb "_")
            (addLeft (addMaskF fuel) eb ea ++ addRight (addMaskF fuel) ea eb) ≠ [] := by
          have hALne := addLeft_ne_nil (addMaskF fuel) eb (strictValid_node_ne_nil hav)
          have hm2ne : addLeft (addMaskF fuel) eb ea ++ addRight (addMaskF fuel) ea eb ≠ [] := by
            intro hh
            exact hALne (List.append_eq_nil.mp hh).1
          rcases hBW : lookupv eb "_" with _ | bw
          · simpa [addWild, hBW] using hm2ne
          · rcases hAW : lookupv ea "_" with _ | aw
            · simp [addWild, hAW, hBW]
            · simp only [addWild, hAW, hBW]
              exact setKey_ne_nil _ _ _
        rw [addMaskF_node_node]
        have hprsub : ∀ kv ∈ pruneWild (addWild (addMaskF fuel) (lookupv ea "_")
            (lookupv eb "_") (addLeft (addMaskF fuel) eb ea ++ addRight (addMaskF fuel) ea eb)),
            kv ∈ addWild (addMaskF fuel) (lookupv ea "_") (lookupv eb "_")
              (addLeft (addMaskF fuel) eb ea ++ addRight (addMaskF fuel) ea eb) := by
          intro kv hm
          simp only [pruneWild] at hm
          rcases hwld : lookupv (addWild (addMaskF fuel) (lookupv ea "_") (lookupv eb "_")
              (addLeft (addMaskF fuel) eb ea ++ addRight (addMaskF fuel) ea eb)) "_" with _ | w
          · rwa [hwld] at hm
          · rw [hwld] at hm
            exact (List.mem_filter.mp hm).1
        have hprnd : ((pruneWild (addWild (addMaskF fuel) (lookupv ea "_") (lookupv eb "_")
            (addLeft (addMaskF fuel) eb ea ++ addRight (addMaskF fuel) ea eb))).map
            Prod.fst).Nodup := by
          simp only [pruneWild]
          rcases hwld : lookupv (addWild (addMaskF fuel) (lookupv ea "_") (lookupv eb "_")
              (addLeft (addMaskF fuel) eb ea ++ addRight (addMaskF fuel) ea eb)) "_" with _ | w
          · exact hm3nd
          · exact ((List.filter_sublist _).map Prod.fst).nodup hm3nd
        have hprne : pruneWild (addWild (addMaskF fuel) (lookupv ea "_") (lookupv eb "_")
            (addLeft (addMaskF fuel) eb ea ++ addRight (addMaskF fuel) ea eb)) ≠ [] := by
          simp only [pruneWild]
          rcases hwld : lookupv (addWild (addMaskF fuel) (lookupv ea "_") (lookupv eb "_")
              (addLeft (addMaskF fuel) eb ea ++ addRight (addMaskF fuel) ea eb)) "_" with _ | w
          · exact hm3ne
          · exact List.ne_nil_of_mem
              (List.mem_filter.mpr ⟨lookupv_mem hwld, by simp⟩)
        constructor
        · exact wfMask_node_of hprnd (wfMaskL_of_all _ (fun kv hm => (hm3ok kv (hprsub kv hm)).1))
        · exact strictValid_node_of hprne
            (strictValidL_of_all _ (fun kv hm => (hm3ok kv (hprsub kv hm)).2))

theorem deepEqL_mem : ∀ (es fs : List (String × Mask)) (k : String) (v : Mask),
    deepEqL es fs = true → (k, v) ∈ es →
      ∃ w, lookupv fs k = some w ∧ deepEquals v w = true := by
  intro es
  induction es with
  | nil => intro fs k v _ hm; simp at hm
  | cons e rest ih =>
    intro fs k v h hm
    obtain ⟨k', v'⟩ := e
    simp only [deepEqL, Bool.and_eq_true] at h
    rcases List.mem_cons.mp hm with h1 | h1
    · have hk : k = k' := congrArg Prod.fst h1
      have hv : v = v' := congrArg Prod.snd h1
      subst hk
      subst hv
      rcases hl : lookupv fs k with _ | w
      · simp only [hl] at h
        exact absurd h.1 (by simp)
      · simp only [hl] at h
        exact ⟨w, hl ▸ rfl, h.1⟩
    · exact ih fs k v h.2 h1

theorem deepEq_keys_sub {es fs : List (String × Mask)}
    (h : fs.all (fun kv => hasKey es kv.1) = true) {k : String}
    (hk : lookupv es k = none) : lookupv fs k = none := by
  apply lookupv_eq_none_of_not_mem
  intro hmem
  obtain ⟨kv, hm, hkk⟩ := List.mem_map.mp hmem
  have hall := List.all_eq_true.mp h kv hm
  rw [hkk] at hall
  simp only [hasKey, hk, Option.isSome_none] at hall
  exact absurd hall (by simp)

/-- Two `deepEquals`-equal well-formed valid masks resolve every path to the
same `checkPath` verdict (used to justify the wildcard-redundancy pruning of
`addMask`). -/
theorem deepEquals_checkPath :
    ∀ (ps : List String) (x y : Mask),
      wfMask x = true → strictValid x = true → wfMask y = true → strictValid y = true →
      deepEquals x y = true →
      ObjectMask.checkPath x ps = ObjectMask.checkPath y ps := by
  intro ps
  induction ps with
  | nil =>
    intro x y _ hxv _ hyv heq
    cases x with
    | scalar n => simp [strictValid] at hxv
    | bool bx =>
      cases y with
      | scalar n => simp [strictValid] at hyv
      | bool byy =>
        simp only [deepEquals, beq_iff_eq] at heq
        subst heq
        rfl
      | node fs =>
        simp only [deepEquals] at heq
        rw [List.isEmpty_iff] at heq
        exact absurd heq (strictValid_node_ne_nil hyv)
    | node es =>
      cases y with
      | scalar n => simp [strictValid] at hyv
      | bool byy =>
        simp only [deepEquals] at heq
        rw [List.isEmpty_iff] at heq
        exact absurd heq (strictValid_node_ne_nil hxv)
      | node fs => rfl
  | cons k rest ih =>
    intro x y hxw hxv hyw hyv heq
    cases x with
    | scalar n => simp [strictValid] at hxv
    | bool bx =>
      cases y with
      | scalar n => simp [strictValid] at hyv
      | bool byy =>
        simp only [deepEquals, beq_iff_eq] at heq
        subst heq
        rfl
      | node fs =>
        simp only [deepEquals] at heq
        rw [List.isEmpty_iff] at heq
        exact absurd heq (strictValid_node_ne_nil hyv)
    | node es =>
      cases y with
      | scalar n => simp [strictValid] at hyv
      | bool byy =>
        simp only [deepEquals] at heq
        rw [List.isEmpty_iff] at heq
        exact absurd heq (strictValid_node_ne_nil hxv)
      | node fs =>
        simp only [deepEquals, Bool.and_eq_true] at heq
        obtain ⟨hL, hS⟩ := heq
        show isTrueMask (subMask (Mask.node es) (k :: rest)) =
          isTrueMask (subMask (Mask.node fs) (k :: rest))
        rw [subMask_node_resolve, subMask_node_resolve]
        rcases hek : lookupv es k with _ | v
        · have hfk : lookupv fs k = none := deepEq_keys_sub hS hek
          rcases hw : lookupv es "_" with _ | w
          · have hfw : lookupv fs "_" = none := deepEq_keys_sub hS hw
            simp only [resolveMask, hek, hfk, hw, hfw]
          · obtain ⟨w', hfw, heqw⟩ := deepEqL_mem es fs "_" w hL (lookupv_mem hw)
            simp only [resolveMask, hek, hfk, hw, hfw]
            exact ih w w' (wfMask_of_lookup hxw hw) (strictValid_of_lookup hxv hw)
              (wfMask_of_lookup hyw hfw) (strictValid_of_lookup hyv hfw) heqw
        · obtain ⟨v', hfv, heqv⟩ := deepEqL_mem es fs k v hL (lookupv_mem hek)
          simp only [resolveMask, hek, hfv]
          exact ih v v' (wfMask_of_lookup hxw hek) (strictValid_of_lookup hxv hek)
            (wfMask_of_lookup hyw hfv) (strictValid_of_lookup hyv hfv) heqv

theorem checkPath_bool (b : Bool) (ps : List String) :
    ObjectMask.checkPath (Mask.bool b) ps = b := by
  cases b <;> simp [ObjectMask.checkPath, subMask_bool, isTrueMask]

theorem checkPath_node_nil (es : List (String × Mask)) :
    ObjectMask.checkPath (Mask.node es) [] = false := rfl

theorem checkPath_node_cons (es : List (String × Mask)) (k : String) (rest : List String) :
    ObjectMask.checkPath (Mask.node es) (k :: rest) =
      ObjectMask.checkPath (resolveMask es k) rest := by
  rw [ObjectMask.checkPath, subMask_node_resolve]
  rfl

theorem addLeft_lookup_wild (comb : Mask → Mask → Mask)
    (eb es : List (String × Mask)) :
    lookupv (addLeft comb eb es) "_" = lookupv es "_" := by
  rw [addLeft_lookup]
  rcases lookupv es "_" with _ | v <;> simp

/-- Resolution of a concrete key in the node built by `addMask` on two
objects, before pruning: each operand contributes its exact key when present,
falling back to the other operand's value or wildcard exactly as the loops
write it. -/
theorem addMask_resolve (comb : Mask → Mask → Mask) (ea eb : List (String × Mask))
    (hbnd : (eb.map Prod.fst).Nodup) (k : String) (hk : k ≠ "_") :
    resolveMask (addWild comb (lookupv ea "_") (lookupv eb "_")
      (addLeft comb eb ea ++ addRight comb ea eb)) k =
      match lookupv ea k, lookupv eb k, lookupv ea "_", lookupv eb "_" with
      | some v, some w, _, _ => comb v w
      | some v, none, _, some bw => comb v bw
      | some v, none, _, none => v
      | none, some w, some aw, _ => comb w aw
      | none, some w, none, _ => w
      | none, none, some aw, some bw => comb aw bw
      | none, none, some aw, none => aw
      | none, none, none, some bw => bw
      | none, none, none, none => Mask.bool false := by
  have hALw := addLeft_lookup_wild comb eb ea
  have hARw := addRight_lookup_wild comb ea eb
  rcases hA : lookupv ea k with _ | v
  · have hALk : lookupv (addLeft comb eb ea) k = none := by
      rw [addLeft_lookup, hA]; rfl
    rcases hB : lookupv eb k with _ | w
    · have hARk : lookupv (addRight comb ea eb) k = none := by
        rw [addRight_lookup_new comb ea eb hbnd k hk hA, hB]; rfl
      have hm2k : lookupv (addLeft comb eb ea ++ addRight comb ea eb) k = none := by
        rw [lookupv_append_none hALk, hARk]
      rcases hAW : lookupv ea "_" with _ | aw
      · have hm2w : lookupv (addLeft comb eb ea ++ addRight comb ea eb) "_" = none := by
          rw [lookupv_append_none (by rw [hALw, hAW]), hARw]
        rcases hBW : lookupv eb "_" with _ | bw
        · simp only [addWild, resolveMask, hm2k, hm2w]
        · simp only [addWild]
          simp only [resolveMask, lookupv_append_none hm2k,
            lookupv_append_none hm2w, lookupv]
          simp [Ne.symm hk]
      · have hm2w : lookupv (addLeft comb eb ea ++ addRight comb ea eb) "_" = some aw := by
          rw [lookupv_append_some (by rw [hALw, hAW])]
        rcases hBW : lookupv eb "_" with _ | bw
        · simp only [addWild, resolveMask, hm2k, hm2w]
        · simp only [addWild]
          simp only [resolveMask, lookupv_setKey_ne _ _ hk, hm2k,
            lookupv_setKey_self]
    · have hARk : lookupv (addRight comb ea eb) k =
          some (match lookupv ea "_" with
                | some aw => comb w aw
                | none => w) := by
        rw [addRight_lookup_new comb ea eb hbnd k hk hA, hB]
        rfl
      have hm2k : lookupv (addLeft comb eb ea ++ addRight comb ea eb) k = _ :=
        lookupv_append_none hALk
      rcases hAW : lookupv ea "_" with _ | aw
      · rcases hBW : lookupv eb "_" with _ | bw
        · simp only [addWild, resolveMask, hm2k, hARk, hAW]
        · simp only [addWild]
          simp only [resolveMask, lookupv_append_some (hm2k.trans (by rw [hARk, hAW]))]
      · rcases hBW : lookupv eb "_" with _ | bw
        · simp only [addWild, resolveMask, hm2k, hARk, hAW]
        · simp only [addWild]
          simp only [resolveMask, lookupv_setKey_ne _ _ hk,
            hm2k.trans (by rw [hARk, hAW])]
  · have hALk : lookupv (addLeft comb eb ea) k =
        some (match lookupv eb k with
              | some w => comb v w
              | none => match lookupv eb "_" with
                | some bw => comb v bw
                | none => v) := by
      rw [addLeft_lookup, hA]
      simp only [Option.map_some']
      rw [if_neg hk]
    have hm2k : lookupv (addLeft comb eb ea ++ addRight comb ea eb) k = _ :=
      lookupv_append_some hALk
    rcases hB : lookupv eb k with _ | w
    · rcases hBW : lookupv eb "_" with _ | bw
      · simp only [addWild, resolveMask, hm2k, hB, hBW]
      · rcases hAW : lookupv ea "_" with _ | aw
        · simp only [addWild]
          simp only [resolveMask, lookupv_append_some (hm2k.trans (by rw [hB, hBW]))]
        · simp only [addWild]
          simp only [resolveMask, lookupv_setKey_ne _ _ hk,
            hm2k.trans (by rw [hB, hBW])]
    · rcases hBW : lookupv eb "_" with _ | bw
      · simp only [addWild, resolveMask, hm2k, hB]
      · rcases hAW : lookupv ea "_" with _ | aw
        · simp only [addWild]
          simp only [resolveMask, lookupv_append_some (hm2k.trans (by rw [hB]))]
        · simp only [addWild]
          simp only [resolveMask, lookupv_setKey_ne _ _ hk,
            hm2k.trans (by rw [hB])]

/-- The unpruned node assembled by `addMask` from two well-formed valid
objects has well-formed valid entry values and duplicate-free keys. -/
theorem addMask_m3_props (fuel : Nat) (ea eb : List (String × Mask))
    (hsz : maskSizeL ea + maskSizeL eb + 2 ≤ fuel + 1)
    (haw : wfMask (Mask.node ea) = true) (hav : strictValid (Mask.node ea) = true)
    (hbw : wfMask (Mask.node eb) = true) (hbv : strictValid (Mask.node eb) = true) :
    (∀ kv ∈ addWild (addMaskF fuel) (lookupv ea "_") (lookupv eb "_")
        (addLeft (addMaskF fuel) eb ea ++ addRight (addMaskF fuel) ea eb),
      wfMask kv.2 = true ∧ strictValid kv.2 = true) ∧
    ((addWild (addMaskF fuel) (lookupv ea "_") (lookupv eb "_")
        (addLeft (addMaskF fuel) eb ea ++ addRight (addMaskF fuel) ea eb)).map
      Prod.fst).Nodup := by
  have hea := wfMask_node_parts haw
  have heb := wfMask_node_parts hbw
  have heaV := strictValid_node_entries hav
  have hebV := strictValid_node_entries hbv
  have hALok : ∀ kv ∈ addLeft (addMaskF fuel) eb ea,
      wfMask kv.2 = true ∧ strictValid kv.2 = true := by
    refine @addLeft_all (fun m => wfMask m = true ∧ strictValid m = true)
      (addMaskF fuel) eb ea ?_ ?_
    · intro kv hm
      exact ⟨wfMaskL_mem ea kv.1 kv.2 hea.2 hm,
        strictValidL_mem ea kv.1 kv.2 heaV hm⟩
    · intro k v w hm hl
      have hszv := maskSize_of_mem ea k v hm
      have hszw : maskSize w < maskSizeL eb := by
        rcases hl with hl | hl
        · exact maskSize_of_lookup hl
        · exact maskSize_of_lookup hl
      refine addMaskF_ok fuel v w (by omega) (wfMaskL_mem ea k v hea.2 hm)
        (strictValidL_mem ea k v heaV hm) ?_ ?_
      · rcases hl with hl | hl
        · exact wfMask_of_lookup hbw hl
        · exact wfMask_of_lookup hbw hl
      · rcases hl with hl | hl
        · exact strictValid_of_lookup hbv hl
        · exact strictValid_of_lookup hbv hl
  have hARok : ∀ kv ∈ addRight (addMaskF fuel) ea eb,
      wfMask kv.2 = true ∧ strictValid kv.2 = true := by
    refine @addRight_all (fun m => wfMask m = true ∧ strictValid m = true)
      (addMaskF fuel) ea eb ?_ ?_
    · intro kv hm
      exact ⟨wfMaskL_mem eb kv.1 kv.2 heb.2 hm,
        strictValidL_mem eb kv.1 kv.2 hebV hm⟩
    · intro k w aw hm hl
      have hszw := maskSize_of_mem eb k w hm
      have hszaw : maskSize aw < maskSizeL ea := maskSize_of_lookup hl
      exact addMaskF_ok fuel w aw (by omega) (wfMaskL_mem eb k w heb.2 hm)
        (strictValidL_mem eb k w hebV hm)
        (wfMask_of_lookup haw hl) (strictValid_of_lookup hav hl)
  have hm2ok : ∀ kv ∈ addLeft (addMaskF fuel) eb ea ++ addRight (addMaskF fuel) ea eb,
      wfMask kv.2 = true ∧ strictValid kv.2 = true := by
    intro kv hm
    rcases List.mem_append.mp hm with hm | hm
    · exact hALok kv hm
    · exact hARok kv hm
  have hm2nd : (((addLeft (addMaskF fuel) eb ea ++ addRight (addMaskF fuel) ea eb)).map
      Prod.fst).Nodup := by
    rw [List.map_append, List.nodup_append]
    refine ⟨by rw [addLeft_keys]; exact hea.1, addRight_keys_nodup _ _ _ heb.1, ?_⟩
    intro j hj1 hj2
    have h1 : j ∈ ea.map Prod.fst := by rwa [addLeft_keys] at hj1
    have h2 := (addRight_keys_props _ _ _ j hj2).2.2
    exact (lookupv_none_iff.mp h2) h1
  constructor
  · rcases hBW : lookupv eb "_" with _ | bw
    · simpa [addWild, hBW] using hm2ok
    · rcases hAW : lookupv ea "_" with _ | aw
      · simp only [addWild, hAW, hBW]
        intro kv hm
        rcases List.mem_append.mp hm with hm | hm
        · exact hm2ok kv hm
        · simp only [List.mem_singleton] at hm
          subst hm
          exact ⟨wfMask_of_lookup hbw hBW, strictValid_of_lookup hbv hBW⟩
      · simp only [addWild, hAW, hBW]
        intro kv hm
        rcases setKey_mem_vals _ _ _ kv hm with h2 | h2
        · rw [h2]
          have hszaw : maskSize aw < maskSizeL ea := maskSize_of_lookup hAW
          have hszbw : maskSize bw < maskSizeL eb := maskSize_of_lookup hBW
          exact addMaskF_ok fuel aw bw (by omega) (wfMask_of_lookup haw hAW)
            (strictValid_of_lookup hav hAW)
            (wfMask_of_lookup hbw hBW) (strictValid_of_lookup hbv hBW)
        · exact hm2ok kv h2
  · rcases hBW : lookupv eb "_" with _ | bw
    · simpa [addWild, hBW] using hm2nd
    · rcases hAW : lookupv ea "_" with _ | aw
      · simp only [addWild, hAW, hBW]
        rw [List.map_append, List.nodup_append]
        refine ⟨hm2nd, by simp, ?_⟩
        intro j hj1 hj2
        simp only [List.map_cons, List.map_nil, List.mem_singleton] at hj2
        subst hj2
        rw [List.map_append, List.mem_append] at hj1
        rcases hj1 with hj1 | hj1
        · rw [addLeft_keys] at hj1
          exact (lookupv_none_iff.mp hAW) hj1
        · exact (addRight_keys_props _ _ _ _ hj1).2.1 rfl
      · simp only [addWild, hAW, hBW]
        rw [setKey_keys_of_mem]
        · exact hm2nd
        · rw [List.map_append, List.mem_append]
          left
          rw [addLeft_keys]
          exact List.mem_map.mpr ⟨("_", aw), lookupv_mem hAW, rfl⟩

/-- Pruning entries that are `deepEquals`-redundant with the wildcard does not
change `checkPath` on any concrete (non-wildcard-headed) path, provided the
node has duplicate-free keys and well-formed valid entry values. -/
theorem checkPath_pruneWild (m3 : List (String × Mask))
    (hnd : (m3.map Prod.fst).Nodup)
    (hok : ∀ kv ∈ m3, wfMask kv.2 = true ∧ strictValid kv.2 = true)
    (k : String) (hk : k ≠ "_") (rest : List String) :
    ObjectMask.checkPath (Mask.node (pruneWild m3)) (k :: rest) =
      ObjectMask.checkPath (Mask.node m3) (k :: rest) := by
  rcases hwld : lookupv m3 "_" with _ | w
  · simp only [pruneWild, hwld]
  · simp only [pruneWild, hwld]
    rw [checkPath_node_cons, checkPath_node_cons]
    have hlf := lookupv_filter (fun kv => kv.1 == "_" || !deepEquals kv.2 w) m3 hnd
    have hfw : lookupv (m3.filter (fun kv => kv.1 == "_" || !deepEquals kv.2 w)) "_"
        = some w := by
      rw [hlf "_", hwld]
      simp
    rcases hek : lookupv m3 k with _ | v
    · have hfk : lookupv (m3.filter (fun kv => kv.1 == "_" || !deepEquals kv.2 w)) k
          = none := by
        rw [hlf k, hek]
      simp only [resolveMask, hfk, hek, hfw, hwld]
    · by_cases hdeq : deepEquals v w = true
      · have hfk : lookupv (m3.filter (fun kv => kv.1 == "_" || !deepEquals kv.2 w)) k
            = none := by
          rw [hlf k, hek]
          simp [hk, hdeq]
        simp only [resolveMask, hfk, hek, hfw]
        have hv := hok (k, v) (lookupv_mem hek)
        have hw := hok ("_", w) (lookupv_mem hwld)
        exact (deepEquals_checkPath rest v w hv.1 hv.2 hw.1 hw.2 hdeq).symm
      · have hfk : lookupv (m3.filter (fun kv => kv.1 == "_" || !deepEquals kv.2 w)) k
            = some v := by
          rw [hlf k, hek]
          simp [hdeq]
        simp only [resolveMask, hfk, hek]

/-- Fueled `addMask` computes the pointwise OR of `checkPath` on every
wildcard-free path, for well-formed masks with all-boolean leaves. -/
theorem addMaskF_checkPath :
    ∀ (fuel : Nat) (a b : Mask), maskSize a + maskSize b ≤ fuel →
      wfMask a = true → strictValid a = true → wfMask b = true → strictValid b = true →
      ∀ ps : List String, "_" ∉ ps →
        ObjectMask.checkPath (addMaskF fuel a b) ps =
          (ObjectMask.checkPath a ps || ObjectMask.checkPath b ps) := by
  intro fuel
  induction fuel with
  | zero =>
    intro a b hsz _ _ _ _
    have h1 := maskSize_pos a
    have h2 := maskSize_pos b
    omega
  | succ fuel ih =>
    intro a b hsz haw hav hbw hbv ps hps
    cases a with
    | scalar n => simp [strictValid] at hav
    | bool ab =>
      cases ab with
      | true =>
        cases b with
        | bool bb =>
          cases bb with
          | true =>
            show ObjectMask.checkPath (Mask.bool true) ps = _
            simp [checkPath_bool]
          | false =>
            show ObjectMask.checkPath (Mask.bool true) ps = _
            simp [checkPath_bool]
        | scalar n => simp [strictValid] at hbv
        | node eb =>
          show ObjectMask.checkPath (Mask.bool true) ps = _
          simp [checkPath_bool]
      | false =>
        cases b with
        | bool bb =>
          cases bb with
          | true =>
            show ObjectMask.checkPath (Mask.bool true) ps = _
            simp [checkPath_bool]
          | false =>
            show ObjectMask.checkPath (Mask.bool false) ps = _
            simp [checkPath_bool]
        | scalar n => simp [strictValid] at hbv
        | node eb =>
          show ObjectMask.checkPath (Mask.node eb) ps = _
          rw [checkPath_bool]
          simp
    | node ea =>
      cases b with
      | scalar n => simp [strictValid] at hbv
      | bool bb =>
        cases bb with
        | true =>
          show ObjectMask.checkPath (Mask.bool true) ps = _
          simp [checkPath_bool]
        | false =>
          show ObjectMask.checkPath (Mask.node ea) ps = _
          rw [checkPath_bool]
          simp
      | node eb =>
        have hsz2 : maskSizeL ea + maskSizeL eb + 2 ≤ fuel + 1 := by
          simp only [maskSize_node] at hsz; omega
        obtain ⟨hm3ok, hm3nd⟩ := addMask_m3_props fuel ea eb hsz2 haw hav hbw hbv
        rw [addMaskF_node_node]
        cases ps with
        | nil =>
          rw [checkPath_node_nil, checkPath_node_nil, checkPath_node_nil]
          rfl
        | cons k rest =>
          have hk : k ≠ "_" := fun hh => hps (hh ▸ List.mem_cons_self k rest)
          have hrest : "_" ∉ rest := fun hh => hps (List.mem_cons_of_mem _ hh)
          rw [checkPath_pruneWild _ hm3nd hm3ok k hk rest]
          rw [checkPath_node_cons, checkPath_node_cons, checkPath_node_cons]
          rw [addMask_resolve (addMaskF fuel) ea eb (wfMask_node_parts hbw).1 k hk]
          rcases hA : lookupv ea k with _ | v <;> rcases hB : lookupv eb k with _ | w
          · rcases hAW : lookupv ea "_" with _ | aw <;>
              rcases hBW : lookupv eb "_" with _ | bw
            · simp only [resolveMask, hA, hB, hAW, hBW]
              simp [checkPath_bool]
            · simp only [resolveMask, hA, hB, hAW, hBW]
              simp [checkPath_bool]
            · simp only [resolveMask, hA, hB, hAW, hBW]
              simp [checkPath_bool]
            · simp only [resolveMask, hA, hB, hAW, hBW]
              have h1 := maskSize_of_lookup hAW
              have h2 := maskSize_of_lookup hBW
              exact ih aw bw (by omega) (wfMask_of_lookup haw hAW)
                (strictValid_of_lookup hav hAW) (wfMask_of_lookup hbw hBW)
                (strictValid_of_lookup hbv hBW) rest hrest
          · rcases hAW : lookupv ea "_" with _ | aw
            · simp only [resolveMask, hA, hB, hAW]
              simp [checkPath_bool]
            · simp only [resolveMask, hA, hB, hAW]
              have h1 := maskSize_of_lookup hAW
              have h2 := maskSize_of_lookup hB
              rw [ih w aw (by omega) (wfMask_of_lookup hbw hB)
                (strictValid_of_lookup hbv hB) (wfMask_of_lookup haw hAW)
                (strictValid_of_lookup hav hAW) rest hrest]
              exact Bool.or_comm _ _
          · rcases hBW : lookupv eb "_" with _ | bw
            · simp only [resolveMask, hA, hB, hBW]
              simp [checkPath_bool]
            · simp only [resolveMask, hA, hB, hBW]
              have h1 := maskSize_of_lookup hA
              have h2 := maskSize_of_lookup hBW
              exact ih v bw (by omega) (wfMask_of_lookup haw hA)
                (strictValid_of_lookup hav hA) (wfMask_of_lookup hbw hBW)
                (strictValid_of_lookup hbv hBW) rest hrest
          · simp only [resolveMask, hA, hB]
            have h1 := maskSize_of_lookup hA
            have h2 := maskSize_of_lookup hB
            exact ih v w (by omega) (wfMask_of_lookup haw hA)
              (strictValid_of_lookup hav hA) (wfMask_of_lookup hbw hB)
              (strictValid_of_lookup hbv hB) rest hrest

theorem isTrueMask_eq {m : Mask} (h : isTrueMask m = true) : m = Mask.bool true := by
  cases m with
  | bool b => cases b with
    | true => rfl
    | false => simp [isTrueMask] at h
  | scalar n => simp [isTrueMask] at h
  | node es => simp [isTrueMask] at h

theorem truthy_false_eq {m : Mask} (h : truthy m = false) : m = Mask.bool false := by
  cases m with
  | bool b => cases b with
    | true => simp [truthy] at h
    | false => rfl
  | scalar n => simp [truthy] at h
  | node es => simp [truthy] at h

/-- Claim C1: for every two masks whose trees are valid (well-formed, every
leaf a boolean) and every concrete dotted path containing no wildcard
segment, `ObjectMask.addMasks(m1, m2).checkPath(p)` returns true iff
`m1.checkPath(p)` or `m2.checkPath(p)` returns true (union/OR semantics of
mask addition). -/
theorem addMasks_checkPath_or (m1 m2 : Mask)
    (h1w : wfMask m1 = true) (h1v : strictValid m1 = true)
    (h2w : wfMask m2 = true) (h2v : strictValid m2 = true)
    (ps : List String) (hps : "_" ∉ ps) :
    (ObjectMask.checkPath (ObjectMask.addMasks [m1, m2]) ps = true ↔
      (ObjectMask.checkPath m1 ps = true ∨ ObjectMask.checkPath m2 ps = true)) := by
  have hfw : wfMask (Mask.bool false) = true := rfl
  have hfv : strictValid (Mask.bool false) = true := rfl
  have hok1 := addMaskF_ok (maskSize (Mask.bool false) + maskSize m1)
    (Mask.bool false) m1 (le_refl _) hfw hfv h1w h1v
  have h1 : ObjectMask.checkPath (addMask (Mask.bool false) m1) ps =
      ObjectMask.checkPath m1 ps := by
    simp only [addMask]
    rw [addMaskF_checkPath _ _ _ (le_refl _) hfw hfv h1w h1v ps hps,
      checkPath_bool, Bool.false_or]
  have h2 : ObjectMask.checkPath (addMask (addMask (Mask.bool false) m1) m2) ps =
      (ObjectMask.checkPath m1 ps || ObjectMask.checkPath m2 ps) := by
    simp only [addMask]
    rw [addMaskF_checkPath _ _ _ (le_refl _) hok1.1 hok1.2 h2w h2v ps hps]
    rw [addMaskF_checkPath _ _ _ (le_refl _) hfw hfv h1w h1v ps hps]
    rw [checkPath_bool, Bool.false_or]
  simp only [ObjectMask.addMasks, addMasksAux]
  by_cases ht1 : isTrueMask (addMask (Mask.bool false) m1) = true
  · rw [if_pos ht1]
    have he1 := isTrueMask_eq ht1
    rw [he1, checkPath_bool] at h1
    rw [checkPath_bool]
    exact iff_of_true rfl (Or.inl h1.symm)
  · rw [if_neg ht1]
    by_cases ht2 : isTrueMask (addMask (addMask (Mask.bool false) m1) m2) = true
    · rw [if_pos ht2]
      have he2 := isTrueMask_eq ht2
      rw [he2, checkPath_bool] at h2
      rw [checkPath_bool]
      exact iff_of_true rfl ((Bool.or_eq_true _ _) ▸ h2.symm)
    · rw [if_neg ht2]
      by_cases htr : truthy (addMask (addMask (Mask.bool false) m1) m2) = true
      · rw [if_pos htr, h2]
        exact iff_of_eq (Bool.or_eq_true _ _)
      · rw [if_neg htr]
        have he2 := truthy_false_eq (Bool.eq_false_iff.mpr htr)
        rw [he2, checkPath_bool] at h2
        rw [checkPath_bool]
        refine iff_of_false (by simp) ?_
        intro h
        rcases h with h | h
        · rw [h] at h2; simp at h2
        · rw [h] at h2; simp at h2

/-- Witness for C1 at the masks `{a: true}` and `{b: true}` and the path `a`. -/
theorem addMasks_checkPath_or_witness :
    (ObjectMask.checkPath (ObjectMask.addMasks
        [Mask.node [("a", Mask.bool true)], Mask.node [("b", Mask.bool true)]])
        ["a"] = true ↔
      (ObjectMask.checkPath (Mask.node [("a", Mask.bool true)]) ["a"] = true ∨
       ObjectMask.checkPath (Mask.node [("b", Mask.bool true)]) ["a"] = true)) :=
  addMasks_checkPath_or (Mask.node [("a", Mask.bool true)])
    (Mask.node [("b", Mask.bool true)]) (by decide) (by decide) (by decide) (by decide)
    ["a"] (by decide)

theorem delKey_keys_nodup {es : List (String × Mask)} (key : String)
    (hnd : (es.map Prod.fst).Nodup) : ((delKey es key).map Prod.fst).Nodup :=
  ((delKey_sublist es key).map Prod.fst).nodup hnd

theorem setKey_keys_nodup {es : List (String × Mask)} (k : String) (v : Mask)
    (hnd : (es.map Prod.fst).Nodup) : ((setKey es k v).map Prod.fst).Nodup := by
  by_cases hm : k ∈ es.map Prod.fst
  · rw [setKey_keys_of_mem v es k hm]
    exact hnd
  · rw [setKey_of_not_mem v es k hm]
    rw [List.map_append, List.nodup_append]
    refine ⟨hnd, by simp, ?_⟩
    intro j hj1 hj2
    simp only [List.map_cons, List.map_nil, List.mem_singleton] at hj2
    subst hj2
    exact hm hj1

theorem andLeft_lookup (comb : Mask → Mask → Mask) (eb : List (String × Mask)) :
    ∀ (es : List (String × Mask)) (j : String),
      lookupv (andLeft comb eb es) j =
        (lookupv es j).map (fun v =>
          if j = "_" then v
          else
            match lookupv eb j with
            | some w => comb v w
            | none =>
                match lookupv eb "_" with
                | some bw => comb v bw
                | none => Mask.bool false) := by
  intro es
  induction es with
  | nil => intro j; rfl
  | cons e rest ih =>
    intro j
    obtain ⟨k, v⟩ := e
    simp only [andLeft, lookupv]
    by_cases hk : k = j
    · subst hk
      rw [if_pos rfl, if_pos rfl]
      rfl
    · rw [if_neg hk, if_neg hk]
      exact ih j

theorem andLeft_keys (comb : Mask → Mask → Mask) (eb : List (String × Mask)) :
    ∀ es : List (String × Mask), (andLeft comb eb es).map Prod.fst = es.map Prod.fst := by
  intro es
  induction es with
  | nil => rfl
  | cons e rest ih =>
    obtain ⟨k, v⟩ := e
    simp only [andLeft, List.map_cons, ih]

theorem andLeft_lookup_wild (comb : Mask → Mask → Mask)
    (eb es : List (String × Mask)) :
    lookupv (andLeft comb eb es) "_" = lookupv es "_" := by
  rw [andLeft_lookup]
  rcases lookupv es "_" with _ | v <;> simp

theorem andRight_keys_props (comb : Mask → Mask → Mask) (ea : List (String × Mask)) :
    ∀ (eb : List (String × Mask)) (j : String),
      j ∈ (andRight comb ea eb).map Prod.fst →
        j ∈ eb.map Prod.fst ∧ j ≠ "_" ∧ lookupv ea j = none := by
  intro eb
  induction eb with
  | nil => intro j h; simp [andRight] at h
  | cons e rest ih =>
    intro j h
    obtain ⟨k, w⟩ := e
    simp only [andRight] at h
    by_cases hsk : k = "_" ∨ hasKey ea k
    · rw [if_pos hsk] at h
      have := ih j h
      exact ⟨List.mem_cons_of_mem _ this.1, this.2.1, this.2.2⟩
    · rw [if_neg hsk] at h
      push_neg at hsk
      simp only [List.map_cons, List.mem_cons] at h
      rcases h with h1 | h1
      · subst h1
        refine ⟨by simp, hsk.1, ?_⟩
        have hns : ¬ (lookupv ea j).isSome = true := by simpa [hasKey] using hsk.2
        exact Option.not_isSome_iff_eq_none.mp hns
      · have := ih j h1
        exact ⟨List.mem_cons_of_mem _ this.1, this.2.1, this.2.2⟩

theorem andRight_lookup_wild (comb : Mask → Mask → Mask) (ea eb : List (String × Mask)) :
    lookupv (andRight comb ea eb) "_" = none :=
  lookupv_eq_none_of_not_mem (fun hmem => (andRight_keys_props comb ea eb "_" hmem).2.1 rfl)

theorem andRight_keys_nodup (comb : Mask → Mask → Mask) (ea : List (String × Mask)) :
    ∀ eb : List (String × Mask), (eb.map Prod.fst).Nodup →
      ((andRight comb ea eb).map Prod.fst).Nodup := by
  intro eb
  induction eb with
  | nil => intro _; simp [andRight]
  | cons e rest ih =>
    intro hnd
    obtain ⟨k, w⟩ := e
    have hnd' : (rest.map Prod.fst).Nodup := by
      simp only [List.map_cons, List.nodup_cons] at hnd; exact hnd.2
    have hkn : k ∉ rest.map Prod.fst := by
      simp only [List.map_cons, List.nodup_cons] at hnd; exact hnd.1
    simp only [andRight]
    by_cases hsk : k = "_" ∨ hasKey ea k
    · rw [if_pos hsk]
      exact ih hnd'
    · rw [if_neg hsk]
      simp only [List.map_cons, List.nodup_cons]
      refine ⟨fun hmem => ?_, ih hnd'⟩
      exact hkn (andRight_keys_props comb ea rest k hmem).1

theorem andRight_lookup_new (comb : Mask → Mask → Mask) (ea : List (String × Mask)) :
    ∀ (eb : List (String × Mask)), (eb.map Prod.fst).Nodup →
      ∀ (j : String), j ≠ "_" → lookupv ea j = none →
        lookupv (andRight comb ea eb) j =
          (lookupv eb j).map (fun w =>
            match lookupv ea "_" with
            | some aw => comb w aw
            | none => Mask.bool false) := by
  intro eb
  induction eb with
  | nil => intro _ j hj ha; rfl
  | cons e rest ih =>
    intro hnd j hj ha
    obtain ⟨k, w⟩ := e
    have hnd' : (rest.map Prod.fst).Nodup := by
      simp only [List.map_cons, List.nodup_cons] at hnd; exact hnd.2
    simp only [andRight]
    by_cases hsk : k = "_" ∨ hasKey ea k
    · rw [if_pos hsk]
      by_cases hkj : k = j
      · subst hkj
        rcases hsk with h1 | h1
        · exact absurd h1 hj
        · simp only [hasKey, ha, Option.isSome_none] at h1
          exact absurd h1 (by simp)
      · rw [ih hnd' j hj ha]
        simp only [lookupv]
        rw [if_neg hkj]
    · rw [if_neg hsk]
      simp only [lookupv]
      by_cases hkj : k = j
      · rw [if_pos hkj, if_pos hkj]
        rfl
      · rw [if_neg hkj, if_neg hkj]
        exact ih hnd' j hj ha

theorem andRight_lookup_inA {comb : Mask → Mask → Mask} {ea eb : List (String × Mask)}
    {j : String} {u : Mask} (h : lookupv ea j = some u) :
    lookupv (andRight comb ea eb) j = none :=
  lookupv_eq_none_of_not_mem (fun hmem => by
    have hh := (andRight_keys_props comb ea eb j hmem).2.2
    rw [hh] at h
    exact Option.noConfusion h)

theorem andMask_m2_nodup (comb : Mask → Mask → Mask) (ea eb : List (String × Mask))
    (hand : (ea.map Prod.fst).Nodup) (hbnd : (eb.map Prod.fst).Nodup) :
    ((andLeft comb eb ea ++ andRight comb ea eb).map Prod.fst).Nodup := by
  rw [List.map_append, List.nodup_append]
  refine ⟨by rw [andLeft_keys]; exact hand, andRight_keys_nodup _ _ _ hbnd, ?_⟩
  intro j hj1 hj2
  have h1 : j ∈ ea.map Prod.fst := by rwa [andLeft_keys] at hj1
  have h2 := (andRight_keys_props _ _ _ j hj2).2.2
  exact (lookupv_none_iff.mp h2) h1

/-- Removing the wildcard and the literally-`false` entries (the sanitize
step that runs when the result has no truthy wildcard) never changes
`checkPath` on a concrete-key path. -/
theorem checkPath_sanitizeFalsies (m3 : List (String × Mask))
    (hnd : (m3.map Prod.fst).Nodup)
    (k : String) (hk : k ≠ "_") (rest : List String) :
    ObjectMask.checkPath (Mask.node (sanitizeFalsies m3)) (k :: rest) =
      ObjectMask.checkPath (Mask.node m3) (k :: rest) := by
  have hdnd := delKey_keys_nodup "_" hnd
  have hlf := lookupv_filter (fun kv => !(kv.2 matches Mask.bool false))
    (delKey m3 "_") hdnd
  have hfw : lookupv ((delKey m3 "_").filter
      (fun kv => !(kv.2 matches Mask.bool false))) "_" = none := by
    rw [hlf "_", lookupv_delKey_self]
  have hdk : lookupv (delKey m3 "_") k = lookupv m3 k := lookupv_delKey_ne m3 hk
  have hfilter : (lookupv m3 "_" = none ∨ lookupv m3 "_" = some (Mask.bool false)) →
      ObjectMask.checkPath (Mask.node ((delKey m3 "_").filter
        (fun kv => !(kv.2 matches Mask.bool false)))) (k :: rest) =
      ObjectMask.checkPath (Mask.node m3) (k :: rest) := by
    intro hwo
    rw [checkPath_node_cons, checkPath_node_cons]
    rcases hek : lookupv m3 k with _ | v
    · have hfk : lookupv ((delKey m3 "_").filter
          (fun kv => !(kv.2 matches Mask.bool false))) k = none := by
        rw [hlf k, hdk, hek]
      rcases hwo with hwo | hwo
      · simp only [resolveMask, hfk, hfw, hek, hwo]
      · simp only [resolveMask, hfk, hfw, hek, hwo]
    · by_cases hvf : (fun kv : String × Mask => !(kv.2 matches Mask.bool false)) (k, v)
          = true
      · have hfk : lookupv ((delKey m3 "_").filter
            (fun kv => !(kv.2 matches Mask.bool false))) k = some v := by
          simp only [hlf k, hdk, hek]
          rw [if_pos hvf]
        simp only [resolveMask, hfk, hek]
      · have hveq : v = Mask.bool false := by
          cases v with
          | bool b =>
            cases b with
            | false => rfl
            | true => exact absurd rfl hvf
          | scalar n => exact absurd rfl hvf
          | node es => exact absurd rfl hvf
        subst hveq
        have hfk : lookupv ((delKey m3 "_").filter
            (fun kv => !(kv.2 matches Mask.bool false))) k = none := by
          rw [hlf k, hdk, hek]
          rfl
        simp only [resolveMask, hfk, hfw, hek]
  rcases hw : lookupv m3 "_" with _ | w
  · simp only [sanitizeFalsies, hw]
    exact hfilter (Or.inl hw)
  · by_cases htw : truthy w = true
    · simp only [sanitizeFalsies, hw, if_pos htw]
    · have hwf : w = Mask.bool false := truthy_false_eq (Bool.eq_false_iff.mpr htw)
      subst hwf
      simp only [sanitizeFalsies, hw, if_neg htw]
      exact hfilter (Or.inr hw)

theorem andMaskF_node_node (fuel : Nat) (ea eb : List (String × Mask)) :
    andMaskF (fuel + 1) (Mask.node ea) (Mask.node eb) =
      (if (sanitizeFalsies (match lookupv ea "_", lookupv eb "_" with
            | some aw, some bw =>
                setKey (andLeft (andMaskF fuel) eb ea ++ andRight (andMaskF fuel) ea eb)
                  "_" (andMaskF fuel aw bw)
            | _, _ =>
                delKey (andLeft (andMaskF fuel) eb ea ++ andRight (andMaskF fuel) ea eb)
                  "_")).isEmpty
        then Mask.bool false
        else Mask.node (sanitizeFalsies (match lookupv ea "_", lookupv eb "_" with
            | some aw, some bw =>
                setKey (andLeft (andMaskF fuel) eb ea ++ andRight (andMaskF fuel) ea eb)
                  "_" (andMaskF fuel aw bw)
            | _, _ =>
                delKey (andLeft (andMaskF fuel) eb ea ++ andRight (andMaskF fuel) ea eb)
                  "_"))) := rfl

/-- Resolution of a concrete key in the node assembled by `andMask` before
the sanitize step: keys shared by both operands are ANDed, a key present in
only one operand is ANDed with the other operand's wildcard (or replaced by
`false` when that operand has none), and a key in neither falls back to the
combined wildcard when both operands have one. -/
theorem andMask_resolve (comb : Mask → Mask → Mask) (ea eb : List (String × Mask))
    (hbnd : (eb.map Prod.fst).Nodup) (k : String) (hk : k ≠ "_") :
    resolveMask (match lookupv ea "_", lookupv eb "_" with
      | some aw, some bw =>
          setKey (andLeft comb eb ea ++ andRight comb ea eb) "_" (comb aw bw)
      | _, _ => delKey (andLeft comb eb ea ++ andRight comb ea eb) "_") k =
      match lookupv ea k, lookupv eb k, lookupv ea "_", lookupv eb "_" with
      | some v, some w, _, _ => comb v w
      | some v, none, _, some bw => comb v bw
      | some _, none, _, none => Mask.bool false
      | none, some w, some aw, _ => comb w aw
      | none, some _, none, _ => Mask.bool false
      | none, none, some aw, some bw => comb aw bw
      | none, none, _, _ => Mask.bool false := by
  have hALw := andLeft_lookup_wild comb eb ea
  have hARw := andRight_lookup_wild comb ea eb
  rcases hA : lookupv ea k with _ | v
  · have hALk : lookupv (andLeft comb eb ea) k = none := by
      rw [andLeft_lookup, hA]; rfl
    rcases hB : lookupv eb k with _ | w
    · have hARk : lookupv (andRight comb ea eb) k = none := by
        rw [andRight_lookup_new comb ea eb hbnd k hk hA, hB]; rfl
      have hm2k : lookupv (andLeft comb eb ea ++ andRight comb ea eb) k = none := by
        rw [lookupv_append_none hALk, hARk]
      rcases hAW : lookupv ea "_" with _ | aw
      · rcases hBW : lookupv eb "_" with _ | bw
        · simp only [resolveMask, lookupv_delKey_ne _ hk, lookupv_delKey_self,
            hm2k]
        · simp only [resolveMask, lookupv_delKey_ne _ hk, lookupv_delKey_self,
            hm2k]
      · rcases hBW : lookupv eb "_" with _ | bw
        · simp only [resolveMask, lookupv_delKey_ne _ hk, lookupv_delKey_self,
            hm2k]
        · simp only [resolveMask, lookupv_setKey_ne _ _ hk, hm2k,
            lookupv_setKey_self]
    · have hARk : lookupv (andRight comb ea eb) k =
          some (match lookupv ea "_" with
                | some aw => comb w aw
                | none => Mask.bool false) := by
        rw [andRight_lookup_new comb ea eb hbnd k hk hA, hB]
        rfl
      have hm2k : lookupv (andLeft comb eb ea ++ andRight comb ea eb) k = _ :=
        lookupv_append_none hALk
      rcases hAW : lookupv ea "_" with _ | aw
      · rcases hBW : lookupv eb "_" with _ | bw
        · simp only [resolveMask, lookupv_delKey_ne _ hk,
            hm2k.trans (by rw [hARk, hAW])]
        · simp only [resolveMask, lookupv_delKey_ne _ hk,
            hm2k.trans (by rw [hARk, hAW])]
      · rcases hBW : lookupv eb "_" with _ | bw
        · simp only [resolveMask, lookupv_delKey_ne _ hk,
            hm2k.trans (by rw [hARk, hAW])]
        · simp only [resolveMask, lookupv_setKey_ne _ _ hk,
            hm2k.trans (by rw [hARk, hAW])]
  · have hALk : lookupv (andLeft comb eb ea) k =
        some (match lookupv eb k with
              | some w => comb v w
              | none => match lookupv eb "_" with
                | some bw => comb v bw
                | none => Mask.bool false) := by
      rw [andLeft_lookup, hA]
      simp only [Option.map_some']
      rw [if_neg hk]
    have hm2k : lookupv (andLeft comb eb ea ++ andRight comb ea eb) k = _ :=
      lookupv_append_some hALk
    rcases hB : lookupv eb k with _ | w
    · rcases hAW : lookupv ea "_" with _ | aw
      · rcases hBW : lookupv eb "_" with _ | bw
        · simp only [resolveMask, lookupv_delKey_ne _ hk,
            hm2k.trans (by rw [hB, hBW])]
        · simp only [resolveMask, lookupv_delKey_ne _ hk,
            hm2k.trans (by rw [hB, hBW])]
      · rcases hBW : lookupv eb "_" with _ | bw
        · simp only [resolveMask, lookupv_delKey_ne _ hk,
            hm2k.trans (by rw [hB, hBW])]
        · simp only [resolveMask, lookupv_setKey_ne _ _ hk,
            hm2k.trans (by rw [hB, hBW])]
    · rcases hAW : lookupv ea "_" with _ | aw
      · rcases hBW : lookupv eb "_" with _ | bw
        · simp only [resolveMask, lookupv_delKey_ne _ hk,
            hm2k.trans (by rw [hB])]
        · simp only [resolveMask, lookupv_delKey_ne _ hk,
            hm2k.trans (by rw [hB])]
      · rcases hBW : lookupv eb "_" with _ | bw
        · simp only [resolveMask, lookupv_delKey_ne _ hk,
            hm2k.trans (by rw [hB])]
        · simp only [resolveMask, lookupv_setKey_ne _ _ hk,
            hm2k.trans (by rw [hB])]

theorem checkPath_emptyCollapse (es : List (String × Mask)) (ps : List String) :
    ObjectMask.checkPath (if es.isEmpty then Mask.bool false else Mask.node es) ps =
      ObjectMask.checkPath (Mask.node es) ps := by
  by_cases hemp : es.isEmpty = true
  · rw [if_pos hemp]
    have h0 : es = [] := by
      cases es with
      | nil => rfl
      | cons e tl => simp [List.isEmpty] at hemp
    subst h0
    cases ps with
    | nil => rw [checkPath_bool, checkPath_node_nil]
    | cons k rest =>
      rw [checkPath_bool, checkPath_node_cons]
      simp only [resolveMask, lookupv]
      rw [checkPath_bool]
  · rw [if_neg hemp]

/-- Fueled `andMask` computes the pointwise AND of `checkPath` on every
wildcard-free path, for well-formed masks with all-boolean leaves. -/
theorem andMaskF_checkPath :
    ∀ (fuel : Nat) (a b : Mask), maskSize a + maskSize b ≤ fuel →
      wfMask a = true → strictValid a = true → wfMask b = true → strictValid b = true →
      ∀ ps : List String, "_" ∉ ps →
        ObjectMask.checkPath (andMaskF fuel a b) ps =
          (ObjectMask.checkPath a ps && ObjectMask.checkPath b ps) := by
  intro fuel
  induction fuel with
  | zero =>
    intro a b hsz _ _ _ _
    have h1 := maskSize_pos a
    have h2 := maskSize_pos b
    omega
  | succ fuel ih =>
    intro a b hsz haw hav hbw hbv ps hps
    cases a with
    | scalar n => simp [strictValid] at hav
    | bool ab =>
      cases ab with
      | true =>
        cases b with
        | bool bb =>
          cases bb with
          | true =>
            show ObjectMask.checkPath (Mask.bool true) ps = _
            rw [checkPath_bool]
            simp
          | false =>
            show ObjectMask.checkPath (Mask.bool false) ps = _
            rw [checkPath_bool]
            simp
        | scalar n => simp [strictValid] at hbv
        | node eb =>
          show ObjectMask.checkPath (Mask.node eb) ps = _
          rw [checkPath_bool]
          simp
      | false =>
        cases b with
        | bool bb =>
          cases bb with
          | true =>
            show ObjectMask.checkPath (Mask.bool false) ps = _
            simp [checkPath_bool]
          | false =>
            show ObjectMask.checkPath (Mask.bool false) ps = _
            simp [checkPath_bool]
        | scalar n => simp [strictValid] at hbv
        | node eb =>
          show ObjectMask.checkPath (Mask.bool false) ps = _
          simp [checkPath_bool]
    | node ea =>
      cases b with
      | scalar n => simp [strictValid] at hbv
      | bool bb =>
        cases bb with
        | true =>
          show ObjectMask.checkPath (Mask.node ea) ps = _
          rw [checkPath_bool]
          simp
        | false =>
          show ObjectMask.checkPath (Mask.bool false) ps = _
          simp [checkPath_bool]
      | node eb =>
        have hsz2 : maskSizeL ea + maskSizeL eb + 2 ≤ fuel + 1 := by
          simp only [maskSize_node] at hsz; omega
        have hand := (wfMask_node_parts haw).1
        have hbnd := (wfMask_node_parts hbw).1
        have hm2nd := andMask_m2_nodup (andMaskF fuel) ea eb hand hbnd
        have hm3nd : ((match lookupv ea "_", lookupv eb "_" with
            | some aw, some bw =>
                setKey (andLeft (andMaskF fuel) eb ea ++ andRight (andMaskF fuel) ea eb)
                  "_" (andMaskF fuel aw bw)
            | _, _ =>
                delKey (andLeft (andMaskF fuel) eb ea ++ andRight (andMaskF fuel) ea eb)
                  "_").map Prod.fst).Nodup := by
          rcases lookupv ea "_" with _ | aw <;> rcases lookupv eb "_" with _ | bw
          · exact delKey_keys_nodup _ hm2nd
          · exact delKey_keys_nodup _ hm2nd
          · exact delKey_keys_nodup _ hm2nd
          · exact setKey_keys_nodup _ _ hm2nd
        rw [andMaskF_node_node, checkPath_emptyCollapse]
        cases ps with
        | nil =>
          rw [checkPath_node_nil, checkPath_node_nil, checkPath_node_nil]
          rfl
        | cons k rest =>
          have hk : k ≠ "_" := fun hh => hps (hh ▸ List.mem_cons_self k rest)
          have hrest : "_" ∉ rest := fun hh => hps (List.mem_cons_of_mem _ hh)
          rw [checkPath_sanitizeFalsies _ hm3nd k hk rest]
          rw [checkPath_node_cons, checkPath_node_cons, checkPath_node_cons]
          rw [andMask_resolve (andMaskF fuel) ea eb hbnd k hk]
          rcases hA : lookupv ea k with _ | v <;> rcases hB : lookupv eb k with _ | w
          · rcases hAW : lookupv ea "_" with _ | aw <;>
              rcases hBW : lookupv eb "_" with _ | bw
            · simp only [resolveMask, hA, hB, hAW, hBW]
              simp [checkPath_bool]
            · simp only [resolveMask, hA, hB, hAW, hBW]
              simp [checkPath_bool]
            · simp only [resolveMask, hA, hB, hAW, hBW]
              simp [checkPath_bool]
            · simp only [resolveMask, hA, hB, hAW, hBW]
              have h1 := maskSize_of_lookup hAW
              have h2 := maskSize_of_lookup hBW
              exact ih aw bw (by omega) (wfMask_of_lookup haw hAW)
                (strictValid_of_lookup hav hAW) (wfMask_of_lookup hbw hBW)
                (strictValid_of_lookup hbv hBW) rest hrest
          · rcases hAW : lookupv ea "_" with _ | aw
            · simp only [resolveMask, hA, hB, hAW]
              simp [checkPath_bool]
            · simp only [resolveMask, hA, hB, hAW]
              have h1 := maskSize_of_lookup hAW
              have h2 := maskSize_of_lookup hB
              rw [ih w aw (by omega) (wfMask_of_lookup hbw hB)
                (strictValid_of_lookup hbv hB) (wfMask_of_lookup haw hAW)
                (strictValid_of_lookup hav hAW) rest hrest]
              exact Bool.and_comm _ _
          · rcases hBW : lookupv eb "_" with _ | bw
            · simp only [resolveMask, hA, hB, hBW]
              simp [checkPath_bool]
            · simp only [resolveMask, hA, hB, hBW]
              have h1 := maskSize_of_lookup hA
              have h2 := maskSize_of_lookup hBW
              exact ih v bw (by omega) (wfMask_of_lookup haw hA)
                (strictValid_of_lookup hav hA) (wfMask_of_lookup hbw hBW)
                (strictValid_of_lookup hbv hBW) rest hrest
          · simp only [resolveMask, hA, hB]
            have h1 := maskSize_of_lookup hA
            have h2 := maskSize_of_lookup hB
            exact ih v w (by omega) (wfMask_of_lookup haw hA)
              (strictValid_of_lookup hav hA) (wfMask_of_lookup hbw hB)
              (strictValid_of_lookup hbv hB) rest hrest

theorem andMaskF_true_left (fuel : Nat) (b : Mask) :
    andMaskF (fuel + 1) (Mask.bool true) b = b := by
  cases b with
  | bool bb => cases bb <;> rfl
  | scalar n => rfl
  | node es => rfl

theorem strictValid_ne_emptyNode {m : Mask} (h : strictValid m = true) :
    m ≠ Mask.node [] := by
  intro hh
  rw [hh] at h
  exact strictValid_node_ne_nil h rfl

theorem matchesFalse_eq {m : Mask} (h : (m matches Mask.bool false) = true) :
    m = Mask.bool false := by
  cases m with
  | bool b =>
    cases b with
    | false => rfl
    | true => exact Bool.noConfusion h
  | scalar n => exact Bool.noConfusion h
  | node es => exact Bool.noConfusion h

/-- The `andMask` combiner never returns an empty object node: the empty
intersection is collapsed to `false`. -/
theorem andMaskF_ne_emptyNode (fuel : Nat) (a b : Mask)
    (ha : a ≠ Mask.node []) (hb : b ≠ Mask.node []) :
    andMaskF fuel a b ≠ Mask.node [] := by
  cases fuel with
  | zero => simp [andMaskF]
  | succ fuel =>
    cases a with
    | bool ab =>
      cases ab with
      | true =>
        rw [andMaskF_true_left]
        exact hb
      | false =>
        cases b with
        | bool bb => cases bb <;> simp [andMaskF]
        | scalar n => simp [andMaskF]
        | node eb => simp [andMaskF]
    | scalar n =>
      cases b with
      | bool bb => cases bb with
        | true =>
          show Mask.scalar n ≠ Mask.node []
          simp
        | false =>
          show Mask.bool false ≠ Mask.node []
          simp
      | scalar m =>
        show Mask.bool false ≠ Mask.node []
        simp
      | node eb =>
        show Mask.bool false ≠ Mask.node []
        simp
    | node ea =>
      cases b with
      | bool bb => cases bb with
        | true =>
          show Mask.node ea ≠ Mask.node []
          exact ha
        | false =>
          show Mask.bool false ≠ Mask.node []
          simp
      | scalar m =>
        show Mask.bool false ≠ Mask.node []
        simp
      | node eb =>
        rw [andMaskF_node_node]
        by_cases hemp : (sanitizeFalsies (match lookupv ea "_", lookupv eb "_" with
            | some aw, some bw =>
                setKey (andLeft (andMaskF fuel) eb ea ++ andRight (andMaskF fuel) ea eb)
                  "_" (andMaskF fuel aw bw)
            | _, _ =>
                delKey (andLeft (andMaskF fuel) eb ea ++ andRight (andMaskF fuel) ea eb)
                  "_")).isEmpty = true
        · rw [if_pos hemp]
          simp
        · rw [if_neg hemp]
          intro hcontra
          have hnil := Mask.node.inj hcontra
          rw [hnil] at hemp
          exact hemp rfl

/-- Claim C2: for every two masks whose trees are valid (well-formed, every
leaf a boolean) and every concrete dotted path containing no wildcard
segment, `ObjectMask.andMasks(m1, m2).checkPath(p)` returns true iff both
`m1.checkPath(p)` and `m2.checkPath(p)` return true (intersection/AND
semantics; keys present in only one operand inherit the other operand's
wildcard or `false` per the `andMask` entry loops); moreover an intersection
whose resulting map is empty is collapsed to the boolean `false`, so the
result is never the empty object node. -/
theorem andMasks_checkPath_and (m1 m2 : Mask)
    (h1w : wfMask m1 = true) (h1v : strictValid m1 = true)
    (h2w : wfMask m2 = true) (h2v : strictValid m2 = true)
    (ps : List String) (hps : "_" ∉ ps) :
    ((ObjectMask.checkPath (ObjectMask.andMasks [m1, m2]) ps = true ↔
       (ObjectMask.checkPath m1 ps = true ∧ ObjectMask.checkPath m2 ps = true)) ∧
     ObjectMask.andMasks [m1, m2] ≠ Mask.node []) := by
  have hf1 : maskSize (Mask.bool true) + maskSize m1 = maskSize m1 + 1 := by
    show 1 + maskSize m1 = maskSize m1 + 1
    omega
  have hacc1 : andMask (Mask.bool true) m1 = m1 := by
    rw [andMask, hf1, andMaskF_true_left]
  have h2 : ObjectMask.checkPath (andMask m1 m2) ps =
      (ObjectMask.checkPath m1 ps && ObjectMask.checkPath m2 ps) := by
    rw [andMask]
    exact andMaskF_checkPath _ _ _ (le_refl _) h1w h1v h2w h2v ps hps
  simp only [ObjectMask.andMasks, andMasksAux, hacc1]
  split
  next hm1f =>
    have he1 : m1 = Mask.bool false := matchesFalse_eq hm1f
    constructor
    · rw [checkPath_bool]
      refine iff_of_false (by simp) ?_
      intro hcon
      rw [he1, checkPath_bool] at hcon
      exact absurd hcon.1 (by simp)
    · simp
  next hm1f =>
    split
    next hm2f =>
      have he2 : andMask m1 m2 = Mask.bool false := matchesFalse_eq hm2f
      rw [he2, checkPath_bool] at h2
      constructor
      · rw [checkPath_bool]
        refine iff_of_false (by simp) ?_
        intro hcon
        rw [hcon.1, hcon.2] at h2
        simp at h2
      · simp
    next hm2f =>
      by_cases htr : truthy (andMask m1 m2) = true
      · rw [if_pos htr]
        constructor
        · rw [h2]
          exact iff_of_eq (Bool.and_eq_true _ _)
        · exact andMaskF_ne_emptyNode _ _ _ (strictValid_ne_emptyNode h1v)
            (strictValid_ne_emptyNode h2v)
      · refine absurd ?_ hm2f
        rw [truthy_false_eq (Bool.eq_false_iff.mpr htr)]

/-- Witness for C2 at the masks `{a: true, b: true}` and `{b: true, c: true}`
and the path `b`. -/
theorem andMasks_checkPath_and_witness :
    ((ObjectMask.checkPath (ObjectMask.andMasks
        [Mask.node [("a", Mask.bool true), ("b", Mask.bool true)],
         Mask.node [("b", Mask.bool true), ("c", Mask.bool true)]]) ["b"] = true ↔
       (ObjectMask.checkPath (Mask.node [("a", Mask.bool true), ("b", Mask.bool true)])
          ["b"] = true ∧
        ObjectMask.checkPath (Mask.node [("b", Mask.bool true), ("c", Mask.bool true)])
          ["b"] = true)) ∧
     ObjectMask.andMasks
        [Mask.node [("a", Mask.bool true), ("b", Mask.bool true)],
         Mask.node [("b", Mask.bool true), ("c", Mask.bool true)]] ≠ Mask.node []) :=
  andMasks_checkPath_and
    (Mask.node [("a", Mask.bool true), ("b", Mask.bool true)])
    (Mask.node [("b", Mask.bool true), ("c", Mask.bool true)])
    (by decide) (by decide) (by decide) (by decide) ["b"] (by decide)
